import Mathlib

/-!
Verification of the session-normalization core of `claude-code-to-sqlite`
(`claude_code_to_sqlite/utils.py`) against its specification.

The embedding models Python/JSON values with the inductive type `PyVal`.
Machine behaviour that the source relies on is modelled explicitly:
`dict.get` with and without a default, Python truthiness, `x or y`,
string slicing (character based, as in Python), and the fact that calling
a `dict` method on a non-dict raises — fallible code is embedded in
`Except String` (written as explicit `match` cascades so that each
exception point is a visible case).  `json.loads` is treated as a
parameter `jl : String → Option PyVal` (parse failure = `none`); the code
under verification never inspects how a line was parsed, only whether it
parsed.  JSON numbers are modelled as `Int` (the token counts and sizes
the claims concern are integers).
-/

inductive PyVal where
  | none
  | bool (b : Bool)
  | int (n : Int)
  | str (s : String)
  | list (xs : List PyVal)
  | dict (kvs : List (String × PyVal))
  deriving Repr, BEq

/-- Association-list lookup: first binding wins (dicts from `json.loads`
have unique keys). -/
def pyLookup (kvs : List (String × PyVal)) (k : String) : Option PyVal :=
  match kvs with
  | [] => Option.none
  | (k0, v) :: rest => if k0 = k then some v else pyLookup rest k

/-- `d.get(k)` — `None` when the key is absent. -/
def pyGet (kvs : List (String × PyVal)) (k : String) : PyVal :=
  (pyLookup kvs k).getD .none

/-- `d.get(k, default)` — the stored value (even a null) when the key is
present, the default otherwise. -/
def pyGetD (kvs : List (String × PyVal)) (k : String) (default : PyVal) : PyVal :=
  (pyLookup kvs k).getD default

/-- Python truthiness of the modelled values. -/
def truthy : PyVal → Bool
  | .none => false
  | .bool b => b
  | .int n => n != 0
  | .str s => s ≠ ""
  | .list xs => !xs.isEmpty
  | .dict kvs => !kvs.isEmpty

/-- Python `a or b`. -/
def pyOr (a b : PyVal) : PyVal :=
  if truthy a then a else b

/-- Python `v == "lit"` for a string literal: true exactly when `v` is that
string (a non-string never equals a string). -/
def pyEqStr (v : PyVal) (s : String) : Bool :=
  match v with
  | .str t => t = s
  | _ => false

/-- Calling a dict method (`.get`) on a non-dict raises `AttributeError`. -/
def asDict : PyVal → Except String (List (String × PyVal))
  | .dict kvs => .ok kvs
  | _ => .error "AttributeError: not a dict"

/-- Iterating a non-list where a list of dicts is required fails (either the
value is not iterable, or its elements are not dicts and the first method
call on them raises). -/
def asList : PyVal → Except String (List PyVal)
  | .list xs => .ok xs
  | _ => .error "TypeError: not a list"

/-- A value used where `str` is required (joined by `"\n".join`, compared as
a timestamp); anything else raises `TypeError` in the source. -/
def asStr : PyVal → Except String String
  | .str s => .ok s
  | _ => .error "TypeError: not a str"

/-- A value used in integer arithmetic: `int` or `bool` (Python booleans are
integers); anything else — including an explicit JSON null — raises. -/
def asIntB : PyVal → Except String Int
  | .int n => .ok n
  | .bool b => .ok (if b then 1 else 0)
  | _ => .error "TypeError: not an int"

def squote : Char := Char.ofNat 39
def dquote : Char := Char.ofNat 34

/-- Escapes of one character inside a Python string repr (common escapes
only; other characters are kept verbatim, which matches CPython for
printable text — the only shapes that reach `str()` here). -/
def pyReprChar (q c : Char) : String :=
  if c = '\\' then "\\\\"
  else if c = q then String.singleton '\\' ++ String.singleton q
  else if c = '\n' then "\\n"
  else if c = '\r' then "\\r"
  else if c = '\t' then "\\t"
  else String.singleton c

/-- Python `repr` of a string: quotes (single, or double when the text holds
a single quote and no double quote) around the escaped text. -/
def pyReprStr (s : String) : String :=
  let q := if s.contains squote && !s.contains dquote then dquote else squote
  String.singleton q ++ String.join (s.toList.map (pyReprChar q)) ++ String.singleton q

mutual

/-- Python `repr` of a modelled value. -/
def pyRepr : PyVal → String
  | .none => "None"
  | .bool b => if b then "True" else "False"
  | .int n => toString n
  | .str s => pyReprStr s
  | .list xs => "[" ++ String.intercalate ", " (pyReprList xs) ++ "]"
  | .dict kvs => "\x7b" ++ String.intercalate ", " (pyReprKvs kvs) ++ "\x7d"

def pyReprList : List PyVal → List String
  | [] => []
  | x :: xs => pyRepr x :: pyReprList xs

def pyReprKvs : List (String × PyVal) → List String
  | [] => []
  | (k, v) :: rest => (pyReprStr k ++ ": " ++ pyRepr v) :: pyReprKvs rest

end

/-- Python `str()`: a string is itself, everything else is its repr (the
shapes occurring here). -/
def pyStr : PyVal → String
  | .str s => s
  | v => pyRepr v

/-- Python `v[:n]` for the sliceable values (`str` and `list`); slicing any
other value raises `TypeError`. -/
def pySlice (v : PyVal) (n : Nat) : Except String PyVal :=
  match v with
  | .str s => .ok (.str (s.take n))
  | .list xs => .ok (.list (xs.take n))
  | _ => .error "TypeError: unsliceable"

/-- Python `sep.join(parts)`. -/
def pyJoin (sep : String) : List String → String
  | [] => ""
  | [x] => x
  | x :: xs => x ++ sep ++ pyJoin sep xs

/-- The ASCII whitespace stripped by Python `str.strip()` (the characters
that occur in session files). -/
def pyIsSpace (c : Char) : Bool :=
  c = ' ' || c = '\t' || c = '\n' || c = '\r' || c = Char.ofNat 11 || c = Char.ofNat 12

/-- Python `s.strip()`. -/
def pyStrip (s : String) : String :=
  String.mk (((s.toList.dropWhile pyIsSpace).reverse.dropWhile pyIsSpace).reverse)

/-- A Python `for` loop appending `f x` for each element, aborting at the
first exception — the effect of the source's accumulate-then-join shape,
where any non-string part makes the final `"\n".join` raise. -/
def mapE (f : PyVal → Except String String) : List PyVal → Except String (List String)
  | [] => .ok []
  | x :: xs =>
      match f x with
      | .error e => .error e
      | .ok s =>
          match mapE f xs with
          | .error e => .error e
          | .ok ss => .ok (s :: ss)

-- === Content extraction (`utils.py`, "Content extraction" section) ===

/-- `_base64_decoded_size_kb`: `(encoded_len * 3 / 4) / 1024`, exact — the
Python float is exact for every realistic length, as the value is a dyadic
scaling of `3 * encoded_len`. -/
def base64_decoded_size_kb (encodedLen : Nat) : ℚ :=
  (encodedLen * 3 / 4 : ℚ) / 1024

/-- Python `f"{x:.0f}"` rounding: nearest integer, ties to even. -/
def fmtRound0 (q : ℚ) : ℤ :=
  if q - ⌊q⌋ < 1 / 2 then ⌊q⌋
  else if q - ⌊q⌋ > 1 / 2 then ⌊q⌋ + 1
  else if ⌊q⌋ % 2 = 0 then ⌊q⌋ else ⌊q⌋ + 1

/-- Python `f"{x:.0f}"` for the non-negative sizes formatted here. -/
def pyFmtF0 (q : ℚ) : String :=
  toString (fmtRound0 q)

/-- Python `"pat" in s`. -/
def pyInStr (pat s : String) : Bool :=
  decide (List.IsInfix pat.toList s.toList)

/-- Python `len()` — strings, lists and dicts have a length. -/
def pyLen : PyVal → Except String Nat
  | .str s => .ok s.length
  | .list xs => .ok xs.length
  | .dict kvs => .ok kvs.length
  | _ => .error "TypeError: object has no len"

/-- The `"[<ctype>: <media>, ~<N>KB decoded]"` placeholder built by the
structured-block arm of `replace_base64_content`. -/
def b64BlockPlaceholder (kvs source : List (String × PyVal)) : Except String String :=
  match pyLen (pyGetD source "data" (.str "")) with
  | .error e => .error e
  | .ok n =>
      let media := pyStr (pyGetD source "media_type" (.str "unknown"))
      let ctype := pyStr (pyGetD kvs "type" (.str "file"))
      .ok ("[" ++ ctype ++ ": " ++ media ++ ", ~" ++ pyFmtF0 (base64_decoded_size_kb n) ++ "KB decoded]")

/-- One element of the list arm of `replace_base64_content`. -/
def replaceB64Item (item : PyVal) : Except String String :=
  match item with
  | .dict kvs =>
      (match asDict (pyGetD kvs "source" (.dict [])) with
       | .error e => .error e
       | .ok source =>
          if pyEqStr (pyGet source "type") "base64" then
            b64BlockPlaceholder kvs source
          else if pyEqStr (pyGet kvs "type") "text" then
            asStr (pyGetD kvs "text" (.str ""))
          else .ok (pyStr item))
  | _ => .ok (pyStr item)

/-- `replace_base64_content`. -/
def replace_base64_content (content : PyVal) : Except String PyVal :=
  match content with
  | .str s =>
      if pyInStr "base64" (s.take 500) && decide (s.length > 1000) then
        .ok (.str ("[base64 content, ~" ++ pyFmtF0 (base64_decoded_size_kb s.length) ++ "KB decoded]"))
      else .ok (.str s)
  | .dict kvs =>
      (match asDict (pyGetD kvs "source" (.dict [])) with
       | .error e => .error e
       | .ok source =>
          if pyEqStr (pyGet source "type") "base64" then
            match b64BlockPlaceholder kvs source with
            | .error e => .error e
            | .ok p => .ok (.str p)
          else .ok (.str (pyStr (.dict kvs))))
  | .list xs =>
      (match mapE replaceB64Item xs with
       | .error e => .error e
       | .ok parts => .ok (.str (pyJoin "\n" parts)))
  | v => .ok (.str (pyStr v))

/-- One `tool_result` inner element in `extract_text`:
`b.get("text", str(b))`, which must be a string for the join. -/
def toolResultInner (b : PyVal) : Except String String :=
  match b with
  | .dict bk => asStr (pyGetD bk "text" (.str (pyStr b)))
  | _ => .error "AttributeError: not a dict"

/-- One block of `extract_text`'s list arm; `none` means the block
contributes no part (a `thinking` block). -/
def extractTextBlock (block : PyVal) : Except String (Option String) :=
  match block with
  | .dict kvs =>
      let btype := pyGet kvs "type"
      if pyEqStr btype "text" then
        match asStr (pyGetD kvs "text" (.str "")) with
        | .error e => .error e
        | .ok t => .ok (some t)
      else if pyEqStr btype "thinking" then .ok Option.none
      else if pyEqStr btype "tool_use" then
        .ok (some ("[tool_use: " ++ pyStr (pyGetD kvs "name" (.str "")) ++ "]"))
      else if pyEqStr btype "tool_result" then
        match replace_base64_content (pyGetD kvs "content" (.str "")) with
        | .error e => .error e
        | .ok (.list rs) =>
            (match mapE toolResultInner rs with
             | .error e => .error e
             | .ok ss => .ok (some (pyJoin "\n" ss)))
        | .ok r => .ok (some (pyStr r))
      else if pyEqStr btype "image" || pyEqStr btype "document" then
        match replace_base64_content block with
        | .error e => .error e
        | .ok r =>
            match asStr r with
            | .error e => .error e
            | .ok s => .ok (some s)
      else .ok (some (pyStr block))
  | b => .ok (some (pyStr b))

def extractTextParts : List PyVal → Except String (List String)
  | [] => .ok []
  | b :: bs =>
      match extractTextBlock b with
      | .error e => .error e
      | .ok p? =>
          match extractTextParts bs with
          | .error e => .error e
          | .ok rest => .ok (match p? with | some p => p :: rest | Option.none => rest)

/-- `extract_text`. -/
def extract_text (raw_content : PyVal) : Except String String :=
  match raw_content with
  | .none => .ok ""
  | .str s => .ok s
  | .list blocks =>
      (match extractTextParts blocks with
       | .error e => .error e
       | .ok parts => .ok (pyJoin "\n" parts))
  | v => .ok (pyStr v)

/-- The truthy `thinking` text of a `thinking`-typed dict block, when any:
the source appends `block.get("thinking", "")` only when it is truthy. -/
def thinkingTextOf (block : PyVal) : Option PyVal :=
  match block with
  | .dict kvs =>
      if pyEqStr (pyGet kvs "type") "thinking" then
        let t := pyGetD kvs "thinking" (.str "")
        if truthy t then some t else Option.none
      else Option.none
  | _ => Option.none

/-- `extract_thinking`. -/
def extract_thinking (raw_content : PyVal) : Except String (Option String) :=
  match raw_content with
  | .list blocks =>
      let parts := blocks.filterMap thinkingTextOf
      if parts.isEmpty then .ok Option.none
      else
        match mapE asStr parts with
        | .error e => .error e
        | .ok ss => .ok (some (pyJoin "\n" ss))
  | _ => .ok Option.none

structure ToolCall where
  id : PyVal
  name : PyVal
  input : PyVal
  deriving Repr

/-- `extract_tool_calls`. -/
def extract_tool_calls (raw_content : PyVal) : List ToolCall :=
  match raw_content with
  | .list blocks =>
      blocks.filterMap (fun b =>
        match b with
        | .dict kvs =>
            if pyEqStr (pyGet kvs "type") "tool_use" then
              some ⟨pyGetD kvs "id" (.str ""), pyGetD kvs "name" (.str ""),
                    pyGetD kvs "input" (.dict [])⟩
            else Option.none
        | _ => Option.none)
  | _ => []

-- === Python comparison helpers used by `min()`/`max()` over timestamps ===

/-- Lexicographic strict order on character lists, by code point, as in
Python string comparison. -/
def charsLt : List Char → List Char → Bool
  | _, [] => false
  | [], _ :: _ => true
  | a :: as, b :: bs =>
      if a.toNat < b.toNat then true
      else if b.toNat < a.toNat then false
      else charsLt as bs

/-- Python `a < b` for the value shapes that can reach the `min`/`max`
calls: strings compare lexicographically, numbers (and booleans, which are
numbers) numerically; any other pairing raises `TypeError`. -/
def pyLtB (a b : PyVal) : Except String Bool :=
  match a, b with
  | .str s, .str t => .ok (charsLt s.toList t.toList)
  | .int m, .int n => .ok (decide (m < n))
  | .int m, .bool d => .ok (decide (m < if d then 1 else 0))
  | .bool c, .int n => .ok (decide ((if c then (1 : Int) else 0) < n))
  | .bool c, .bool d => .ok (decide ((if c then (1 : Int) else 0) < if d then 1 else 0))
  | _, _ => .error "TypeError: unorderable types"

/-- Python `min(xs)`: first element, replaced whenever a later `x < m`. -/
def pyMinLoop (m : PyVal) : List PyVal → Except String PyVal
  | [] => .ok m
  | x :: xs =>
      match pyLtB x m with
      | .error e => .error e
      | .ok lt => pyMinLoop (if lt then x else m) xs

def pyMin : List PyVal → Except String PyVal
  | [] => .error "ValueError: min of empty sequence"
  | x :: xs => pyMinLoop x xs

/-- Python `max(xs)`: first element, replaced whenever a later `x > m`. -/
def pyMaxLoop (m : PyVal) : List PyVal → Except String PyVal
  | [] => .ok m
  | x :: xs =>
      match pyLtB m x with
      | .error e => .error e
      | .ok gt => pyMaxLoop (if gt then x else m) xs

def pyMax : List PyVal → Except String PyVal
  | [] => .error "ValueError: max of empty sequence"
  | x :: xs => pyMaxLoop x xs

/-- `set.add`: keep one copy of each value (insertion order; the source
keeps a `set` and only its members are observable downstream). -/
def insertDistinct (xs : List PyVal) (x : PyVal) : List PyVal :=
  if xs.any (· == x) then xs else xs ++ [x]

/-- Using an unhashable value as a dict key raises `TypeError`. -/
def hashableCheck : PyVal → Except String Unit
  | .list _ => .error "TypeError: unhashable type"
  | .dict _ => .error "TypeError: unhashable type"
  | _ => .ok ()

-- === Row shapes (§3 of the spec) ===

structure MessageRow where
  session_id : PyVal
  message_index : Nat
  role : PyVal
  content : PyVal
  thinking : Option String
  timestamp : PyVal
  uuid : PyVal
  parent_uuid : PyVal
  model : PyVal
  record_type : PyVal
  tool_names : Option (List PyVal)
  tool_use_id : PyVal
  is_tool_result : Bool
  is_sidechain : PyVal
  input_tokens : Option Int
  output_tokens : Option Int
  cache_read_tokens : Option Int
  cache_create_tokens : Option Int
  stop_reason : PyVal
  duration_ms : PyVal
  deriving Repr

/-- `models` holds the distinct model values seen, in insertion order; `[]`
is stored as NULL.  (The source serializes `json.dumps(sorted(models))`;
no claim depends on the serialization, so the set itself is kept.) -/
structure SessionRow where
  session_id : PyVal
  project : Option String
  cwd : PyVal
  client_version : PyVal
  permission_mode : PyVal
  models : List PyVal
  summary : PyVal
  custom_title : PyVal
  start_time : PyVal
  end_time : PyVal
  message_count : Nat
  user_message_count : Nat
  assistant_message_count : Nat
  total_input_tokens : Int
  total_output_tokens : Int
  total_tokens : Int
  file_path : Option String
  file_size_bytes : Option Int
  source : String
  deriving Repr

-- === `process_session` (CLI/browser path) ===

/-- The running state of `process_session`'s single pass. -/
structure SessState where
  session_id : PyVal
  summary : PyVal
  custom_title : PyVal
  models : List PyVal
  total_input_tokens : Int
  total_output_tokens : Int
  timestamps : List PyVal
  cwd : PyVal
  client_version : PyVal
  permission_mode : PyVal
  message_rows : List MessageRow
  msg_index : Nat
  source : String
  deriving Repr

def initSessState : SessState :=
  { session_id := .none, summary := .none, custom_title := .none, models := []
    total_input_tokens := 0, total_output_tokens := 0, timestamps := []
    cwd := .none, client_version := .none, permission_mode := .none
    message_rows := [], msg_index := 0, source := "cli" }

/-- The four per-message usage reads (`usage.get(..., 0)` each). -/
def recordTokenFields (usage : List (String × PyVal)) : Except String (Int × Int × Int × Int) :=
  match asIntB (pyGetD usage "input_tokens" (.int 0)) with
  | .error e => .error e
  | .ok input_tokens =>
    match asIntB (pyGetD usage "output_tokens" (.int 0)) with
    | .error e => .error e
    | .ok output_tokens =>
      match asIntB (pyGetD usage "cache_read_input_tokens" (.int 0)) with
      | .error e => .error e
      | .ok cache_read =>
        match asIntB (pyGetD usage "cache_creation_input_tokens" (.int 0)) with
        | .error e => .error e
        | .ok cache_create => .ok (input_tokens, output_tokens, cache_read, cache_create)

/-- The scan for the first `tool_result` content block
(`tool_use_id`, `is_tool_result`). -/
def firstToolResultAux : List PyVal → PyVal × Bool
  | [] => (.none, false)
  | b :: bs =>
      match b with
      | .dict kvs =>
          if pyEqStr (pyGet kvs "type") "tool_result" then (pyGet kvs "tool_use_id", true)
          else firstToolResultAux bs
      | _ => firstToolResultAux bs

def firstToolResult (raw_content : PyVal) : PyVal × Bool :=
  match raw_content with
  | .list blocks => firstToolResultAux blocks
  | _ => (.none, false)

/-- The session-level first-seen-wins updates and timestamp collection —
everything of the loop body between the browser-metadata arm and the
`summary` dispatch. -/
def sessionLevelUpdates (stem : String) (st : SessState) (r : List (String × PyVal)) : SessState :=
  let st := if !truthy st.session_id then { st with session_id := pyGetD r "sessionId" (.str stem) } else st
  let st := if !truthy st.cwd then { st with cwd := pyGet r "cwd" } else st
  let st := if !truthy st.client_version then { st with client_version := pyGet r "version" } else st
  let st := if !truthy st.permission_mode && truthy (pyGet r "permissionMode") then
      { st with permission_mode := pyGet r "permissionMode" } else st
  if truthy (pyGet r "timestamp") then { st with timestamps := st.timestamps ++ [pyGet r "timestamp"] } else st

/-- The message row built for one conversational-turn record, from the
values read out of the record. -/
def mkCliRow (sid : PyVal) (idx : Nat) (r msg : List (String × PyVal))
    (rtype role raw_content model : PyVal) (content_text : String)
    (thinking : Option String)
    (input_tokens output_tokens cache_read cache_create : Int) : MessageRow :=
  let tool_calls := extract_tool_calls raw_content
  let tu := firstToolResult raw_content
  { session_id := sid
    message_index := idx
    role := role
    content := .str (if content_text ≠ "" then content_text.take 100000 else "")
    thinking := match thinking with
      | some t => if t ≠ "" then some (t.take 100000) else Option.none
      | Option.none => Option.none
    timestamp := pyGet r "timestamp"
    uuid := pyGet r "uuid"
    parent_uuid := pyGet r "parentUuid"
    model := model
    record_type := rtype
    tool_names := if tool_calls.isEmpty then Option.none
                  else some (tool_calls.map (·.name))
    tool_use_id := tu.1
    is_tool_result := tu.2
    is_sidechain := pyGetD r "isSidechain" (.bool false)
    input_tokens := if input_tokens ≠ 0 then some input_tokens else Option.none
    output_tokens := if output_tokens ≠ 0 then some output_tokens else Option.none
    cache_read_tokens := if cache_read ≠ 0 then some cache_read else Option.none
    cache_create_tokens := if cache_create ≠ 0 then some cache_create else Option.none
    stop_reason := pyOr (pyGet r "stopReason") (pyGet msg "stop_reason")
    duration_ms := pyGet r "durationMs" }

/-- The message-row part of the loop body (everything after the skip
dispatch): builds the row and the updated state. -/
def emitMessageRow (st : SessState) (r : List (String × PyVal)) (rtype : PyVal) : Except String SessState :=
  match asDict (pyGetD r "message" (.dict [])) with
  | .error e => .error e
  | .ok msg =>
    let role := pyOr (pyGet msg "role") (pyOr rtype (.str "unknown"))
    let raw_content := pyOr (pyGet msg "content") (pyGetD r "content" (.str ""))
    let model := pyGet msg "model"
    let st := if truthy model then { st with models := insertDistinct st.models model } else st
    match asDict (pyGetD msg "usage" (.dict [])) with
    | .error e => .error e
    | .ok usage =>
      match recordTokenFields usage with
      | .error e => .error e
      | .ok (input_tokens, output_tokens, cache_read, cache_create) =>
        let st := { st with total_input_tokens := st.total_input_tokens + input_tokens,
                            total_output_tokens := st.total_output_tokens + output_tokens }
        match extract_text raw_content with
        | .error e => .error e
        | .ok content_text =>
          match (if pyEqStr role "assistant" then extract_thinking raw_content else .ok Option.none) with
          | .error e => .error e
          | .ok thinking =>
            let row := mkCliRow st.session_id st.msg_index r msg rtype role raw_content model
              content_text thinking input_tokens output_tokens cache_read cache_create
            .ok { st with message_rows := st.message_rows ++ [row], msg_index := st.msg_index + 1 }

/-- One iteration of `process_session`'s `for record in records` loop. -/
def process_record (stem : String) (st : SessState) (record : PyVal) : Except String SessState :=
  match asDict record with
  | .error e => .error e
  | .ok r =>
    let rtype := pyGet r "type"
    if pyEqStr rtype "metadata" && pyEqStr (pyGet r "source") "browser_export" then
      .ok { st with source := "browser",
                    session_id := pyGetD r "original_uuid" (.str stem),
                    custom_title := pyGet r "name" }
    else
      let st := sessionLevelUpdates stem st r
      if pyEqStr rtype "summary" then
        .ok { st with summary := pyGetD r "summary" (.str "") }
      else if pyEqStr rtype "custom-title" then
        .ok { st with custom_title := pyGetD r "customTitle" (.str "") }
      else if pyEqStr rtype "file-history-snapshot" then
        .ok st
      else emitMessageRow st r rtype

def process_records (stem : String) : SessState → List PyVal → Except String SessState
  | st, [] => .ok st
  | st, record :: rest =>
      match process_record stem st record with
      | .error e => .error e
      | .ok st => process_records stem st rest

/-- `process_session`, after file loading: `stem` is `filepath.stem`,
`file_path`/`file_size` stand for `str(filepath)`/`stat().st_size`. -/
def process_session (stem file_path : String) (file_size : Int) (project : Option String)
    (records : List PyVal) : Except String (Option SessionRow × List MessageRow) :=
  if records.isEmpty then .ok (Option.none, []) else
  match process_records stem initSessState records with
  | .error e => .error e
  | .ok st =>
    if !truthy st.session_id then .ok (Option.none, []) else
    match (if st.timestamps.isEmpty then .ok PyVal.none else pyMin st.timestamps) with
    | .error e => .error e
    | .ok start_time =>
      match (if st.timestamps.isEmpty then .ok PyVal.none else pyMax st.timestamps) with
      | .error e => .error e
      | .ok end_time =>
        let rows := st.message_rows
        .ok (some {
          session_id := st.session_id
          project := project
          cwd := st.cwd
          client_version := st.client_version
          permission_mode := st.permission_mode
          models := st.models
          summary := st.summary
          custom_title := st.custom_title
          start_time := start_time
          end_time := end_time
          message_count := rows.length
          user_message_count := rows.countP (fun m => pyEqStr m.role "user")
          assistant_message_count := rows.countP (fun m => pyEqStr m.role "assistant")
          total_input_tokens := st.total_input_tokens
          total_output_tokens := st.total_output_tokens
          total_tokens := st.total_input_tokens + st.total_output_tokens
          file_path := some file_path
          file_size_bytes := some file_size
          source := st.source }, rows)

-- === `process_web_conversation` (web-export path) ===

/-- Content/thinking resolution of one web-export turn: structured blocks
when `content` is a non-empty list, else the `text` field (or `""`). -/
def webContentPair (raw_content text_field : PyVal) : Except String (PyVal × Option String) :=
  match raw_content with
  | .list xs =>
      if !xs.isEmpty then
        match extract_text (.list xs) with
        | .error e => .error e
        | .ok ct =>
            match extract_thinking (.list xs) with
            | .error e => .error e
            | .ok th => .ok (PyVal.str ct, th)
      else .ok (pyOr text_field (.str ""), Option.none)
  | _ => .ok (pyOr text_field (.str ""), Option.none)

/-- One turn of the `for msg_index, msg in enumerate(chat_messages)` loop;
also returns the timestamp to accumulate, when truthy. -/
def web_message_row (session_id : PyVal) (i : Nat) (m : PyVal) :
    Except String (MessageRow × Option PyVal) :=
  match asDict m with
  | .error e => .error e
  | .ok mk =>
    let sender := pyGetD mk "sender" (.str "unknown")
    match hashableCheck sender with
    | .error e => .error e
    | .ok _ =>
      let role := if pyEqStr sender "human" then PyVal.str "user"
                  else if pyEqStr sender "assistant" then PyVal.str "assistant"
                  else sender
      match webContentPair (pyGet mk "content") (pyGetD mk "text" (.str "")) with
      | .error e => .error e
      | .ok cPair =>
        let ts := pyGet mk "created_at"
        match (if truthy cPair.1 then pySlice cPair.1 100000 else .ok (PyVal.str "")) with
        | .error e => .error e
        | .ok contentStored =>
          .ok ({
            session_id := session_id
            message_index := i
            role := role
            content := contentStored
            thinking := match cPair.2 with
              | some t => if t ≠ "" then some (t.take 100000) else Option.none
              | Option.none => Option.none
            timestamp := ts
            uuid := pyGet mk "uuid"
            parent_uuid := .none
            model := .none
            record_type := role
            tool_names := Option.none
            tool_use_id := .none
            is_tool_result := false
            is_sidechain := .bool false
            input_tokens := Option.none
            output_tokens := Option.none
            cache_read_tokens := Option.none
            cache_create_tokens := Option.none
            stop_reason := .none
            duration_ms := .none }, if truthy ts then some ts else Option.none)

/-- The whole per-turn loop; carries accumulated rows and the truthy
per-turn timestamps. -/
def process_web_messages (session_id : PyVal) :
    Nat → List PyVal → List MessageRow → List PyVal →
    Except String (List MessageRow × List PyVal)
  | _, [], rows, tss => .ok (rows, tss)
  | i, m :: rest, rows, tss =>
      match web_message_row session_id i m with
      | .error e => .error e
      | .ok rt =>
          process_web_messages session_id (i + 1) rest (rows ++ [rt.1])
            (match rt.2 with | some ts => tss ++ [ts] | Option.none => tss)

/-- `process_web_conversation`; `zip_path`/`zip_size` stand for the
optional archive path and its `stat().st_size`. -/
def process_web_conversation (zip_path : Option String) (zip_size : Option Int)
    (conversation : PyVal) : Except String (Option SessionRow × List MessageRow) :=
  match asDict conversation with
  | .error e => .error e
  | .ok conv =>
    let session_id := pyGetD conv "uuid" (.str "")
    let name := pyGetD conv "name" (.str "")
    let summary_text := pyGetD conv "summary" (.str "")
    let created_at := pyGet conv "created_at"
    let updated_at := pyGet conv "updated_at"
    let chat_val := pyGetD conv "chat_messages" (.list [])
    if !truthy chat_val then .ok (Option.none, []) else
    match asList chat_val with
    | .error e => .error e
    | .ok chat_messages =>
      match process_web_messages session_id 0 chat_messages [] [] with
      | .error e => .error e
      | .ok rt =>
        match (if rt.2.isEmpty then .ok created_at else pyMin rt.2) with
        | .error e => .error e
        | .ok start_time =>
          match (if rt.2.isEmpty then .ok updated_at else pyMax rt.2) with
          | .error e => .error e
          | .ok end_time =>
            .ok (some {
              session_id := session_id
              project := Option.none
              cwd := .none
              client_version := .none
              permission_mode := .none
              models := []
              summary := pyOr summary_text .none
              custom_title := pyOr name .none
              start_time := start_time
              end_time := end_time
              message_count := rt.1.length
              user_message_count := rt.1.countP (fun m => pyEqStr m.role "user")
              assistant_message_count := rt.1.countP (fun m => pyEqStr m.role "assistant")
              total_input_tokens := 0
              total_output_tokens := 0
              total_tokens := 0
              file_path := zip_path
              file_size_bytes := zip_size
              source := "web" }, rt.1)

-- === `load_session_file` (JSONL mode) and corruption recovery ===

/-- All character positions at which `pat` occurs in `s` (ascending,
distinct).  The two record-opening patterns contain no second brace, so
occurrences cannot overlap and this equals `re.finditer`'s match starts. -/
def substrStarts (pat s : List Char) : List Nat :=
  (List.range (s.length + 1)).filter (fun i => pat.isPrefixOf (s.drop i))

/-- `sorted(set(xs))` for naturals. -/
def sortedDedupNat (l : List Nat) : List Nat :=
  List.insertionSort (· ≤ ·) l.dedup

/-- `line[start:stop].strip()` parsed with `json.loads`, kept on success. -/
def segParse (jl : String → Option PyVal) (cs : List Char) (start stop : Nat) : List PyVal :=
  match jl (pyStrip (String.mk ((cs.drop start).take (stop - start)))) with
  | some v => [v]
  | Option.none => []

/-- The candidate intervals between consecutive offsets (the last one
extends to the end of the line). -/
def collectSegments (jl : String → Option PyVal) (cs : List Char) : List Nat → List PyVal
  | [] => []
  | [s0] => segParse jl cs s0 cs.length
  | s0 :: s1 :: rest => segParse jl cs s0 s1 ++ collectSegments jl cs (s1 :: rest)

def recPat1 : List Char := "\x7b\"parentUuid\"".toList
def recPat2 : List Char := "\x7b\"type\":".toList

/-- `_extract_records_from_bad_line`. -/
def extract_records_from_bad_line (jl : String → Option PyVal) (line : String) : List PyVal :=
  let cs := line.toList
  let starts := sortedDedupNat (substrStarts recPat1 cs ++ substrStarts recPat2 cs)
  if starts.isEmpty then []
  else collectSegments jl cs starts

/-- The `for line_num, line in enumerate(f, 1)` loop of `load_session_file`
(JSONL mode), starting at line number `n`. -/
def load_jsonl_loop (jl : String → Option PyVal) (fname : String) :
    Nat → List String → List PyVal × List String
  | _, [] => ([], [])
  | n, l :: ls =>
      let rest := load_jsonl_loop jl fname (n + 1) ls
      let t := pyStrip l
      if t = "" then rest
      else match jl t with
        | some r => (r :: rest.1, rest.2)
        | Option.none =>
            let extracted := extract_records_from_bad_line jl t
            if extracted.isEmpty then
              (rest.1, (fname ++ " line " ++ toString n ++ ": unrecoverable JSON parse error") :: rest.2)
            else (extracted ++ rest.1, rest.2)

/-- `load_session_file` for a `.jsonl` file: returns `(records, warnings)`. -/
def load_session_file_jsonl (jl : String → Option PyVal) (fname : String)
    (lines : List String) : List PyVal × List String :=
  load_jsonl_loop jl fname 1 lines

-- === Record classification and per-record summaries (for the statements) ===

/-- A browser-export metadata record (the only `metadata` shape the loop
treats specially). -/
def isBrowserMetaKvs (kvs : List (String × PyVal)) : Bool :=
  pyEqStr (pyGet kvs "type") "metadata" && pyEqStr (pyGet kvs "source") "browser_export"

/-- The record types that contribute no message row. -/
def isSkippedKvs (kvs : List (String × PyVal)) : Bool :=
  isBrowserMetaKvs kvs || pyEqStr (pyGet kvs "type") "summary" ||
  pyEqStr (pyGet kvs "type") "custom-title" ||
  pyEqStr (pyGet kvs "type") "file-history-snapshot"

def isBrowserMetaRecord : PyVal → Bool
  | .dict kvs => isBrowserMetaKvs kvs
  | _ => false

def isSkippedRecord : PyVal → Bool
  | .dict kvs => isSkippedKvs kvs
  | _ => false

def skippedCount (records : List PyVal) : Nat :=
  records.countP isSkippedRecord

/-- The timestamps one record contributes to the session's collection: its
truthy `timestamp`, except that a browser-export metadata record is skipped
before the collection point. -/
def recTimestamps : PyVal → List PyVal
  | .dict kvs =>
      if isBrowserMetaKvs kvs then []
      else if truthy (pyGet kvs "timestamp") then [pyGet kvs "timestamp"] else []
  | _ => []

/-- How one record transforms the running session id. -/
def sessIdStep (stem : String) (sid : PyVal) : PyVal → PyVal
  | .dict kvs =>
      if isBrowserMetaKvs kvs then pyGetD kvs "original_uuid" (.str stem)
      else if !truthy sid then pyGetD kvs "sessionId" (.str stem)
      else sid
  | _ => sid

/-- A per-message token field is stored as NULL or as a non-zero integer. -/
def tokFieldOk (o : Option Int) : Prop :=
  o = Option.none ∨ ∃ n, n ≠ 0 ∧ o = some n

/-- The row facts every CLI/browser-path message row satisfies. -/
def cliRowOk (row : MessageRow) : Prop :=
  (∃ s, row.content = PyVal.str s) ∧
  tokFieldOk row.input_tokens ∧ tokFieldOk row.output_tokens ∧
  tokFieldOk row.cache_read_tokens ∧ tokFieldOk row.cache_create_tokens

/-- A stored token field against the usage entry for `key`
(`usage.get(key, 0)` then `x or None`): null whenever the entry is absent
or the integer 0, the integer itself when present and non-zero, and never
the stored integer 0. -/
def tokFromUsage (usage : List (String × PyVal)) (key : String) (stored : Option Int) : Prop :=
  ((pyLookup usage key = Option.none ∨ pyLookup usage key = some (PyVal.int 0)) →
    stored = Option.none) ∧
  (∀ n : Int, n ≠ 0 → pyLookup usage key = some (PyVal.int n) → stored = some n) ∧
  stored ≠ some 0

/-- A message row's four token fields as derived from its source record:
the record's `message` dict (`{}` when absent) yields a `usage` dict
(`{}` when absent) whose four entries determine the stored fields. -/
def rowTokensFromRecord (record : PyVal) (row : MessageRow) : Prop :=
  ∃ r msg usage,
    record = PyVal.dict r ∧
    asDict (pyGetD r "message" (.dict [])) = .ok msg ∧
    asDict (pyGetD msg "usage" (.dict [])) = .ok usage ∧
    tokFromUsage usage "input_tokens" row.input_tokens ∧
    tokFromUsage usage "output_tokens" row.output_tokens ∧
    tokFromUsage usage "cache_read_input_tokens" row.cache_read_tokens ∧
    tokFromUsage usage "cache_creation_input_tokens" row.cache_create_tokens

-- === Per-line view of the JSONL loader (for the statements) ===

/-- The records one physical line contributes: none when blank, the parsed
record, or the recovered sub-records. -/
def lineRecords (jl : String → Option PyVal) (l : String) : List PyVal :=
  let t := pyStrip l
  if t = "" then []
  else match jl t with
    | some r => [r]
    | Option.none => extract_records_from_bad_line jl t

/-- A line that is neither blank, nor parseable, nor recoverable. -/
def isUnrecoverableLine (jl : String → Option PyVal) (l : String) : Bool :=
  let t := pyStrip l
  decide (t ≠ "") && (jl t).isNone && (extract_records_from_bad_line jl t).isEmpty

def unrecoverableCount (jl : String → Option PyVal) (lines : List String) : Nat :=
  lines.countP (isUnrecoverableLine jl)

/-- The warning text emitted for the 1-based line number `k`. -/
def lineWarning (fname : String) (k : Nat) : String :=
  fname ++ " line " ++ toString k ++ ": unrecoverable JSON parse error"

/-- The number of input units a line-delimited source holds: every parsed
or recovered record, plus one unit per unrecoverable line. -/
def inputRecordCount (jl : String → Option PyVal) (lines : List String) : Nat :=
  (lines.flatMap (lineRecords jl)).length + unrecoverableCount jl lines

-- === Pure string folds mirroring `min()`/`max()` on string timestamps ===

def strMinFold (m : String) : List String → String
  | [] => m
  | x :: xs => strMinFold (if charsLt x.toList m.toList then x else m) xs

def strMaxFold (m : String) : List String → String
  | [] => m
  | x :: xs => strMaxFold (if charsLt m.toList x.toList then x else m) xs

-- === Definitions taken from the claims (for refutation), spec-modelled ===

/-- First truthy value of a candidate list. -/
def firstTruthy : List PyVal → Option PyVal
  | [] => Option.none
  | x :: xs => if truthy x then some x else firstTruthy xs

/-- Claim C4's candidates: a browser-export metadata record offers its
`original_uuid`, every other record its `sessionId`. -/
def claimIdCandidates : PyVal → List PyVal
  | .dict kvs =>
      if isBrowserMetaKvs kvs then [pyGet kvs "original_uuid"] else [pyGet kvs "sessionId"]
  | _ => []

/-- Claim C4 as stated: the first non-empty candidate, the stem only as a
last resort. -/
def claimSessionId (stem : String) (records : List PyVal) : PyVal :=
  (firstTruthy (records.flatMap claimIdCandidates)).getD (.str stem)

/-- The candidates the code actually consults while the id is unset:
`record.get("sessionId", stem)` — the stem is the immediate default. -/
def stemIdCandidates (stem : String) (records : List PyVal) : List PyVal :=
  records.filterMap (fun r =>
    match r with
    | .dict kvs => some (pyGetD kvs "sessionId" (.str stem))
    | _ => Option.none)

def isThinkingBlock : PyVal → Bool
  | .dict kvs => pyEqStr (pyGet kvs "type") "thinking"
  | _ => false

/-- Claim C6 as stated: null unless the input is a list; for a list, the
texts of all `thinking`-typed blocks joined with newlines, null exactly
when no `thinking`-typed block exists. -/
def claimExtractThinking (v : PyVal) : Option String :=
  match v with
  | .list blocks =>
      if blocks.any isThinkingBlock then
        some (pyJoin "\n" (blocks.filterMap (fun b =>
          match b with
          | .dict kvs =>
              if pyEqStr (pyGet kvs "type") "thinking" then
                match pyGetD kvs "thinking" (.str "") with
                | .str t => some t
                | _ => Option.none
              else Option.none
          | _ => Option.none)))
      else Option.none
  | _ => Option.none

/-- The code's behaviour, stated at the string level: the non-empty texts
of `thinking`-typed blocks (used by the amended C6). -/
def nonEmptyThinkTexts (blocks : List PyVal) : List String :=
  blocks.filterMap (fun b =>
    match b with
    | .dict kvs =>
        if pyEqStr (pyGet kvs "type") "thinking" then
          match pyGetD kvs "thinking" (.str "") with
          | .str t => if t ≠ "" then some t else Option.none
          | _ => Option.none
        else Option.none
    | _ => Option.none)

/-- Claim C8 as stated: the truthy timestamps of all records, the
browser-export metadata record included. -/
def claimAllTimestamps (records : List PyVal) : List PyVal :=
  records.flatMap (fun r =>
    match r with
    | .dict kvs => if truthy (pyGet kvs "timestamp") then [pyGet kvs "timestamp"] else []
    | _ => [])

/-- The per-message condition under which the web path stores string
content: the structured blocks are used, or the `text` fallback is a
string. -/
def webMsgTextOk (m : PyVal) : Prop :=
  ∀ kvs, m = PyVal.dict kvs →
    (∃ s, pyGetD kvs "text" (.str "") = PyVal.str s) ∨
    (∃ xs, pyGet kvs "content" = PyVal.list xs ∧ xs ≠ [])

-- === Concrete inputs for counterexamples and witnesses ===

/-- A record carrying no session identifier. -/
def recNoSid : PyVal :=
  .dict [("type", .str "user"), ("message", .dict [("role", .str "user"), ("content", .str "x")])]

/-- A record carrying the session identifier `"abc"`. -/
def recWithSid : PyVal :=
  .dict [("type", .str "user"), ("sessionId", .str "abc"),
         ("message", .dict [("role", .str "user"), ("content", .str "y")])]

/-- A browser-export metadata record with the earliest timestamp. -/
def c8meta : PyVal :=
  .dict [("type", .str "metadata"), ("source", .str "browser_export"),
         ("original_uuid", .str "orig-1"), ("timestamp", .str "2020-01-01T00:00:00Z")]

/-- An ordinary user record with a later timestamp. -/
def c8user : PyVal :=
  .dict [("type", .str "user"), ("sessionId", .str "abc"),
         ("timestamp", .str "2024-06-15T10:00:00Z"),
         ("message", .dict [("role", .str "user"), ("content", .str "hi")])]

/-- A web conversation with a chat turn but no `uuid`. -/
def convNoUuid : PyVal :=
  .dict [("chat_messages", .list [.dict [("sender", .str "human")]])]

/-- A web conversation whose turn has a truthy non-string `text` and no
structured content. -/
def convListText : PyVal :=
  .dict [("uuid", .str "u"),
         ("chat_messages", .list [.dict [("sender", .str "human"), ("text", .list [.str "a"])]])]

/-- A list holding one `thinking`-typed block with empty text. -/
def c6input : PyVal :=
  .list [.dict [("type", .str "thinking"), ("thinking", .str "")]]

/-- An assistant record with a zero and a non-zero usage value. -/
def c9rec : PyVal :=
  .dict [("type", .str "assistant"), ("sessionId", .str "s"),
         ("message", .dict [("role", .str "assistant"), ("content", .str "x"),
                            ("usage", .dict [("input_tokens", .int 0), ("output_tokens", .int 5)])])]

/-- A record whose message has no content at all. -/
def c10rec : PyVal :=
  .dict [("type", .str "user"), ("sessionId", .str "s"), ("message", .dict [("role", .str "user")])]

/-- A summary record (no session id needed — `recWithSid` supplies one). -/
def recSummaryB : PyVal :=
  .dict [("type", .str "summary"), ("summary", .str "s")]

/-- A concrete stand-in for `json.loads` used by loader witnesses. -/
def jlW : String → Option PyVal := fun s =>
  if s = "A" then some recWithSid
  else if s = "B" then some recSummaryB
  else Option.none

def linesW : List String := ["A", "B", "garbage"]

/-- A web conversation with two well-formed turns. -/
def convW : PyVal :=
  .dict [("uuid", .str "web-1"),
         ("chat_messages", .list [
            .dict [("sender", .str "human"), ("text", .str "q"),
                   ("created_at", .str "2026-01-15T10:00:01Z")],
            .dict [("sender", .str "assistant"), ("text", .str "a"),
                   ("created_at", .str "2026-01-15T10:00:10Z")]])]


-- === Lemmas: one loop iteration of `process_session` ===

theorem mkCliRow_message_index (sid : PyVal) (idx : Nat) (r msg : List (String × PyVal))
    (rtype role raw_content model : PyVal) (content_text : String) (thinking : Option String)
    (a b c d : Int) :
    (mkCliRow sid idx r msg rtype role raw_content model content_text thinking a b c d).message_index = idx := rfl

theorem mkCliRow_rowOk (sid : PyVal) (idx : Nat) (r msg : List (String × PyVal))
    (rtype role raw_content model : PyVal) (content_text : String) (thinking : Option String)
    (a b c d : Int) :
    cliRowOk (mkCliRow sid idx r msg rtype role raw_content model content_text thinking a b c d) := by
  refine ⟨⟨_, rfl⟩, ?_, ?_, ?_, ?_⟩ <;>
    · show tokFieldOk (if _ ≠ (0 : Int) then some _ else Option.none)
      split
      · rename_i hne
        exact Or.inr ⟨_, hne, rfl⟩
      · exact Or.inl rfl

theorem sessionLevelUpdates_spec (stem : String) (st : SessState) (r : List (String × PyVal)) :
    (sessionLevelUpdates stem st r).session_id =
      (if !truthy st.session_id then pyGetD r "sessionId" (.str stem) else st.session_id) ∧
    (sessionLevelUpdates stem st r).timestamps =
      st.timestamps ++ (if truthy (pyGet r "timestamp") then [pyGet r "timestamp"] else []) ∧
    (sessionLevelUpdates stem st r).message_rows = st.message_rows ∧
    (sessionLevelUpdates stem st r).msg_index = st.msg_index := by
  unfold sessionLevelUpdates
  dsimp only
  split <;> split <;> split <;> split <;> split <;> simp_all

theorem emitMessageRow_ok (st : SessState) (r : List (String × PyVal)) (rtype : PyVal)
    (st' : SessState) (h : emitMessageRow st r rtype = .ok st') :
    st'.session_id = st.session_id ∧ st'.timestamps = st.timestamps ∧
    ∃ row, st'.message_rows = st.message_rows ++ [row] ∧
      st'.msg_index = st.msg_index + 1 ∧ row.message_index = st.msg_index ∧ cliRowOk row := by
  unfold emitMessageRow at h
  split at h
  · exact Except.noConfusion h
  · dsimp only at h
    split at h
    · exact Except.noConfusion h
    · split at h
      · exact Except.noConfusion h
      · split at h
        · exact Except.noConfusion h
        · split at h
          · exact Except.noConfusion h
          · injection h with h
            subst h
            split
            · exact ⟨rfl, rfl, _, rfl, rfl, mkCliRow_message_index .., mkCliRow_rowOk ..⟩
            · exact ⟨rfl, rfl, _, rfl, rfl, mkCliRow_message_index .., mkCliRow_rowOk ..⟩

theorem process_record_ok (stem : String) (st : SessState) (record : PyVal) (st' : SessState)
    (h : process_record stem st record = .ok st') :
    st'.session_id = sessIdStep stem st.session_id record ∧
    st'.timestamps = st.timestamps ++ recTimestamps record ∧
    ((isSkippedRecord record = true ∧ st'.message_rows = st.message_rows ∧
        st'.msg_index = st.msg_index) ∨
     (isSkippedRecord record = false ∧ ∃ row, st'.message_rows = st.message_rows ++ [row] ∧
        st'.msg_index = st.msg_index + 1 ∧ row.message_index = st.msg_index ∧ cliRowOk row)) := by
  cases record with
  | dict kvs =>
    unfold process_record at h
    dsimp only [asDict] at h
    obtain ⟨hs1, hs2, hs3, hs4⟩ := sessionLevelUpdates_spec stem st kvs
    split at h
    · rename_i hmeta
      injection h with h
      subst h
      refine ⟨?_, ?_, Or.inl ⟨?_, rfl, rfl⟩⟩
      · simp [sessIdStep, isBrowserMetaKvs, hmeta]
      · simp [recTimestamps, isBrowserMetaKvs, hmeta]
      · simp [isSkippedRecord, isSkippedKvs, isBrowserMetaKvs, hmeta]
    · rename_i hmeta
      split at h
      · rename_i hsum
        injection h with h
        subst h
        refine ⟨?_, ?_, Or.inl ⟨?_, ?_, ?_⟩⟩
        · simpa [sessIdStep, isBrowserMetaKvs, hmeta] using hs1
        · simpa [recTimestamps, isBrowserMetaKvs, hmeta] using hs2
        · simp [isSkippedRecord, isSkippedKvs, hsum]
        · exact hs3
        · exact hs4
      · rename_i hsum
        split at h
        · rename_i hct
          injection h with h
          subst h
          refine ⟨?_, ?_, Or.inl ⟨?_, ?_, ?_⟩⟩
          · simpa [sessIdStep, isBrowserMetaKvs, hmeta] using hs1
          · simpa [recTimestamps, isBrowserMetaKvs, hmeta] using hs2
          · simp [isSkippedRecord, isSkippedKvs, hct]
          · exact hs3
          · exact hs4
        · rename_i hct
          split at h
          · rename_i hfh
            injection h with h
            subst h
            refine ⟨?_, ?_, Or.inl ⟨?_, ?_, ?_⟩⟩
            · simpa [sessIdStep, isBrowserMetaKvs, hmeta] using hs1
            · simpa [recTimestamps, isBrowserMetaKvs, hmeta] using hs2
            · simp [isSkippedRecord, isSkippedKvs, hfh]
            · exact hs3
            · exact hs4
          · rename_i hfh
            obtain ⟨he1, he2, row, he3, he4, he5, he6⟩ :=
              emitMessageRow_ok _ _ _ _ h
            refine ⟨?_, ?_, Or.inr ⟨?_, row, ?_, ?_, ?_, he6⟩⟩
            · rw [he1]
              simpa [sessIdStep, isBrowserMetaKvs, hmeta] using hs1
            · rw [he2]
              simpa [recTimestamps, isBrowserMetaKvs, hmeta] using hs2
            · simp [isSkippedRecord, isSkippedKvs, isBrowserMetaKvs, hmeta, hsum, hct, hfh]
            · rw [he3, hs3]
            · rw [he4, hs4]
            · rw [he5, hs4]
  | none =>
    unfold process_record at h
    dsimp only [asDict] at h
    exact Except.noConfusion h
  | bool b =>
    unfold process_record at h
    dsimp only [asDict] at h
    exact Except.noConfusion h
  | int n =>
    unfold process_record at h
    dsimp only [asDict] at h
    exact Except.noConfusion h
  | str s =>
    unfold process_record at h
    dsimp only [asDict] at h
    exact Except.noConfusion h
  | list xs =>
    unfold process_record at h
    dsimp only [asDict] at h
    exact Except.noConfusion h

theorem process_record_ok_dict (stem : String) (st : SessState) (record : PyVal)
    (st' : SessState) (h : process_record stem st record = .ok st') :
    ∃ kvs, record = PyVal.dict kvs := by
  cases record with
  | dict kvs => exact ⟨kvs, rfl⟩
  | none => unfold process_record at h; dsimp only [asDict] at h; exact Except.noConfusion h
  | bool b => unfold process_record at h; dsimp only [asDict] at h; exact Except.noConfusion h
  | int n => unfold process_record at h; dsimp only [asDict] at h; exact Except.noConfusion h
  | str s => unfold process_record at h; dsimp only [asDict] at h; exact Except.noConfusion h
  | list xs => unfold process_record at h; dsimp only [asDict] at h; exact Except.noConfusion h

-- === Lemmas: the whole record loop ===

theorem process_records_facts (stem : String) :
    ∀ (records : List PyVal) (st st' : SessState),
      process_records stem st records = .ok st' →
      st'.session_id = records.foldl (sessIdStep stem) st.session_id ∧
      st'.timestamps = st.timestamps ++ records.flatMap recTimestamps ∧
      st'.message_rows.length + skippedCount records = st.message_rows.length + records.length ∧
      (st.msg_index = st.message_rows.length →
        st.message_rows.map (fun m => m.message_index) = List.range st.message_rows.length →
        st'.msg_index = st'.message_rows.length ∧
        st'.message_rows.map (fun m => m.message_index) = List.range st'.message_rows.length) ∧
      ((∀ row ∈ st.message_rows, cliRowOk row) → ∀ row ∈ st'.message_rows, cliRowOk row) ∧
      (∀ r ∈ records, ∃ kvs, r = PyVal.dict kvs) := by
  intro records
  induction records with
  | nil =>
    intro st st' h
    injection h with h
    subst h
    refine ⟨rfl, by simp, by simp [skippedCount], fun h1 h2 => ⟨h1, h2⟩, fun h => h, by simp⟩
  | cons record rest ih =>
    intro st st' h
    unfold process_records at h
    split at h
    · exact Except.noConfusion h
    · rename_i st1 hrec
      obtain ⟨hd1, hd2, hd3⟩ := process_record_ok stem st record st1 hrec
      obtain ⟨ih1, ih2, ih3, ih4, ih5, ih6⟩ := ih st1 st' h
      refine ⟨?_, ?_, ?_, ?_, ?_, ?_⟩
      · rw [ih1, List.foldl_cons, hd1]
      · rw [ih2, hd2, List.flatMap_cons, List.append_assoc]
      · rcases hd3 with ⟨hskip, hrows, _⟩ | ⟨hskip, row, hrows, _, _, _⟩
        · rw [hrows] at ih3
          simp [skippedCount, List.countP_cons, hskip] at ih3 ⊢
          omega
        · rw [hrows] at ih3
          simp [skippedCount, List.countP_cons, hskip] at ih3 ⊢
          omega
      · intro h1 h2
        rcases hd3 with ⟨hskip, hrows, hidx⟩ | ⟨hskip, row, hrows, hidx, hrowidx, _⟩
        · exact ih4 (by rw [hidx, hrows, h1]) (by rw [hrows, h2])
        · refine ih4 ?_ ?_
          · rw [hidx, hrows, h1]
            simp
          · rw [hrows]
            rw [h1] at hrowidx
            simp [h2, hrowidx, List.range_succ]
      · intro hall
        rcases hd3 with ⟨_, hrows, _⟩ | ⟨_, row, hrows, _, _, hok⟩
        · exact ih5 (by rw [hrows]; exact hall)
        · refine ih5 ?_
          rw [hrows]
          intro r hr
          rcases List.mem_append.mp hr with hr | hr
          · exact hall r hr
          · rw [List.mem_singleton.mp hr]
            exact hok
      · intro r hr
        rcases List.mem_cons.mp hr with hr | hr
        · subst hr
          exact process_record_ok_dict stem st r st1 hrec
        · exact ih6 r hr

theorem process_session_inv (stem fp : String) (fs : Int) (proj : Option String)
    (records : List PyVal) (sr : SessionRow) (rows : List MessageRow)
    (h : process_session stem fp fs proj records = .ok (some sr, rows)) :
    ∃ st : SessState, process_records stem initSessState records = .ok st ∧
      truthy st.session_id = true ∧
      rows = st.message_rows ∧
      sr.session_id = st.session_id ∧
      (if st.timestamps.isEmpty then Except.ok PyVal.none else pyMin st.timestamps) = .ok sr.start_time ∧
      (if st.timestamps.isEmpty then Except.ok PyVal.none else pyMax st.timestamps) = .ok sr.end_time := by
  unfold process_session at h
  split at h
  · injection h with h
    simp at h
  · split at h
    · exact Except.noConfusion h
    · rename_i st hpr
      split at h
      · injection h with h
        simp at h
      · rename_i hsid
        split at h
        · exact Except.noConfusion h
        · rename_i stv hmin
          split at h
          · exact Except.noConfusion h
          · rename_i etv hmax
            injection h with h
            injection h with h1 h2
            injection h1 with h1
            subst h1
            subst h2
            exact ⟨st, hpr, by simpa using hsid, rfl, rfl, hmin, hmax⟩

-- === Lemmas: the lexicographic string order used by `min`/`max` ===

theorem charsLt_irrefl : ∀ a, charsLt a a = false := by
  intro a
  induction a with
  | nil => rfl
  | cons c cs ih => simp [charsLt, ih]

theorem charsLt_trans : ∀ a b c, charsLt a b = true → charsLt b c = true → charsLt a c = true := by
  intro a
  induction a with
  | nil =>
    intro b c hab hbc
    cases c with
    | nil => cases b <;> simp [charsLt] at hbc
    | cons z zs => simp [charsLt]
  | cons x xs ih =>
    intro b c hab hbc
    cases b with
    | nil => simp [charsLt] at hab
    | cons y ys =>
      cases c with
      | nil => simp [charsLt] at hbc
      | cons z zs =>
        simp only [charsLt] at hab hbc ⊢
        by_cases h1 : x.toNat < y.toNat
        · by_cases h2 : y.toNat < z.toNat
          · have hxz : x.toNat < z.toNat := Nat.lt_trans h1 h2
            simp [hxz]
          · by_cases h4 : z.toNat < y.toNat
            · simp [h2, h4] at hbc
            · have hxz : x.toNat < z.toNat := by omega
              simp [hxz]
        · by_cases h3 : y.toNat < x.toNat
          · simp [h1, h3] at hab
          · simp only [if_neg h1, if_neg h3] at hab
            by_cases h2 : y.toNat < z.toNat
            · have hxz : x.toNat < z.toNat := by omega
              simp [hxz]
            · by_cases h4 : z.toNat < y.toNat
              · simp [h2, h4] at hbc
              · simp only [if_neg h2, if_neg h4] at hbc
                have h5 : ¬ x.toNat < z.toNat := by omega
                have h6 : ¬ z.toNat < x.toNat := by omega
                simp only [if_neg h5, if_neg h6]
                exact ih ys zs hab hbc

theorem charsLt_negtrans :
    ∀ a b c, charsLt a b = false → charsLt b c = false → charsLt a c = false := by
  intro a
  induction a with
  | nil =>
    intro b c hab hbc
    cases b with
    | nil => exact hbc
    | cons y ys => simp [charsLt] at hab
  | cons x xs ih =>
    intro b c hab hbc
    cases c with
    | nil => simp [charsLt]
    | cons z zs =>
      cases b with
      | nil => simp [charsLt] at hbc
      | cons y ys =>
        simp only [charsLt] at hab hbc ⊢
        by_cases h1 : x.toNat < y.toNat
        · simp [h1] at hab
        · by_cases h2 : y.toNat < z.toNat
          · simp [h2] at hbc
          · by_cases h3 : y.toNat < x.toNat
            · have h5 : ¬ x.toNat < z.toNat := by omega
              have h6 : z.toNat < x.toNat := by omega
              simp [h5, h6]
            · simp only [if_neg h1, if_neg h3] at hab
              by_cases h4 : z.toNat < y.toNat
              · have h5 : ¬ x.toNat < z.toNat := by omega
                have h6 : z.toNat < x.toNat := by omega
                simp [h5, h6]
              · simp only [if_neg h2, if_neg h4] at hbc
                have h5 : ¬ x.toNat < z.toNat := by omega
                have h6 : ¬ z.toNat < x.toNat := by omega
                simp only [if_neg h5, if_neg h6]
                exact ih ys zs hab hbc

theorem pyMinLoop_str : ∀ (ss : List String) (m : String),
    pyMinLoop (.str m) (ss.map PyVal.str) = .ok (.str (strMinFold m ss)) := by
  intro ss
  induction ss with
  | nil => intro m; rfl
  | cons x xs ih =>
    intro m
    simp only [List.map_cons, pyMinLoop, pyLtB]
    split
    · rename_i hc
      rw [strMinFold, if_pos hc]
      exact ih x
    · rename_i hc
      rw [strMinFold, if_neg hc]
      exact ih m

theorem pyMaxLoop_str : ∀ (ss : List String) (m : String),
    pyMaxLoop (.str m) (ss.map PyVal.str) = .ok (.str (strMaxFold m ss)) := by
  intro ss
  induction ss with
  | nil => intro m; rfl
  | cons x xs ih =>
    intro m
    simp only [List.map_cons, pyMaxLoop, pyLtB]
    split
    · rename_i hc
      rw [strMaxFold, if_pos hc]
      exact ih x
    · rename_i hc
      rw [strMaxFold, if_neg hc]
      exact ih m

theorem strMinFold_mem : ∀ (ss : List String) (m : String),
    strMinFold m ss = m ∨ strMinFold m ss ∈ ss := by
  intro ss
  induction ss with
  | nil => intro m; exact Or.inl rfl
  | cons x xs ih =>
    intro m
    simp only [strMinFold]
    rcases ih (if charsLt x.toList m.toList then x else m) with h | h
    · rw [h]
      split
      · exact Or.inr (List.mem_cons_self _ _)
      · exact Or.inl rfl
    · exact Or.inr (List.mem_cons_of_mem _ h)

theorem strMaxFold_mem : ∀ (ss : List String) (m : String),
    strMaxFold m ss = m ∨ strMaxFold m ss ∈ ss := by
  intro ss
  induction ss with
  | nil => intro m; exact Or.inl rfl
  | cons x xs ih =>
    intro m
    simp only [strMaxFold]
    rcases ih (if charsLt m.toList x.toList then x else m) with h | h
    · rw [h]
      split
      · exact Or.inr (List.mem_cons_self _ _)
      · exact Or.inl rfl
    · exact Or.inr (List.mem_cons_of_mem _ h)

theorem strMinFold_min : ∀ (ss : List String) (m t : String), (t = m ∨ t ∈ ss) →
    charsLt t.toList (strMinFold m ss).toList = false := by
  intro ss
  induction ss with
  | nil =>
    intro m t ht
    rcases ht with rfl | h
    · exact charsLt_irrefl _
    · exact absurd h (List.not_mem_nil t)
  | cons x xs ih =>
    intro m t ht
    simp only [strMinFold]
    by_cases hc : charsLt x.toList m.toList = true
    · rw [if_pos hc]
      rcases ht with rfl | hmem
      · by_contra hfalse
        rw [Bool.not_eq_false] at hfalse
        have h1 := ih x x (Or.inl rfl)
        have h2 := charsLt_trans _ _ _ hc hfalse
        rw [h2] at h1
        exact Bool.noConfusion h1
      · rcases List.mem_cons.mp hmem with heq | hmem2
        · rw [heq]
          exact ih x x (Or.inl rfl)
        · exact ih x t (Or.inr hmem2)
    · rw [if_neg hc]
      have hcf : charsLt x.toList m.toList = false := by simpa using hc
      rcases ht with heq | hmem
      · exact ih m t (Or.inl heq)
      · rcases List.mem_cons.mp hmem with heq | hmem2
        · rw [heq]
          exact charsLt_negtrans _ _ _ hcf (ih m m (Or.inl rfl))
        · exact ih m t (Or.inr hmem2)

theorem strMaxFold_max : ∀ (ss : List String) (m t : String), (t = m ∨ t ∈ ss) →
    charsLt (strMaxFold m ss).toList t.toList = false := by
  intro ss
  induction ss with
  | nil =>
    intro m t ht
    rcases ht with rfl | h
    · exact charsLt_irrefl _
    · exact absurd h (List.not_mem_nil t)
  | cons x xs ih =>
    intro m t ht
    simp only [strMaxFold]
    by_cases hc : charsLt m.toList x.toList = true
    · rw [if_pos hc]
      rcases ht with rfl | hmem
      · by_contra hfalse
        rw [Bool.not_eq_false] at hfalse
        have h1 := ih x x (Or.inl rfl)
        have h2 := charsLt_trans _ _ _ hfalse hc
        rw [h2] at h1
        exact Bool.noConfusion h1
      · rcases List.mem_cons.mp hmem with heq | hmem2
        · rw [heq]
          exact ih x x (Or.inl rfl)
        · exact ih x t (Or.inr hmem2)
    · rw [if_neg hc]
      have hcf : charsLt m.toList x.toList = false := by simpa using hc
      rcases ht with heq | hmem
      · exact ih m t (Or.inl heq)
      · rcases List.mem_cons.mp hmem with heq | hmem2
        · rw [heq]
          exact charsLt_negtrans _ _ _ (ih m m (Or.inl rfl)) hcf
        · exact ih m t (Or.inr hmem2)

theorem pyMin_str (s : String) (ss : List String) :
    pyMin ((s :: ss).map PyVal.str) = .ok (.str (strMinFold s ss)) := by
  simpa only [List.map_cons, pyMin] using pyMinLoop_str ss s

theorem pyMax_str (s : String) (ss : List String) :
    pyMax ((s :: ss).map PyVal.str) = .ok (.str (strMaxFold s ss)) := by
  simpa only [List.map_cons, pyMax] using pyMaxLoop_str ss s

-- === Lemmas: the JSONL loader ===

theorem load_jsonl_loop_eq (jl : String → Option PyVal) (fname : String) :
    ∀ (lines : List String) (n : Nat),
      load_jsonl_loop jl fname n lines =
        (lines.flatMap (lineRecords jl),
         (List.enumFrom n lines).filterMap (fun p =>
           if isUnrecoverableLine jl p.2 then some (lineWarning fname p.1) else Option.none)) := by
  intro lines
  induction lines with
  | nil => intro n; rfl
  | cons l ls ih =>
    intro n
    simp only [load_jsonl_loop, ih, List.flatMap_cons, List.enumFrom_cons, List.filterMap_cons]
    by_cases ht : pyStrip l = ""
    · simp [lineRecords, isUnrecoverableLine, ht]
    · cases hjl : jl (pyStrip l) with
      | some r => simp [lineRecords, isUnrecoverableLine, ht, hjl]
      | none =>
        by_cases hx : (extract_records_from_bad_line jl (pyStrip l)).isEmpty
        · simp [lineRecords, isUnrecoverableLine, lineWarning, ht, hjl, hx,
            List.isEmpty_iff.mp hx]
        · simp [lineRecords, isUnrecoverableLine, ht, hjl, hx]

theorem load_session_file_jsonl_eq (jl : String → Option PyVal) (fname : String)
    (lines : List String) :
    load_session_file_jsonl jl fname lines =
      (lines.flatMap (lineRecords jl),
       (List.enumFrom 1 lines).filterMap (fun p =>
         if isUnrecoverableLine jl p.2 then some (lineWarning fname p.1) else Option.none)) :=
  load_jsonl_loop_eq jl fname lines 1

theorem warn_filterMap_length (jl : String → Option PyVal) (fname : String) :
    ∀ (lines : List String) (n : Nat),
      ((List.enumFrom n lines).filterMap (fun p =>
         if isUnrecoverableLine jl p.2 then some (lineWarning fname p.1) else Option.none)).length =
      lines.countP (isUnrecoverableLine jl) := by
  intro lines
  induction lines with
  | nil => intro n; rfl
  | cons l ls ih =>
    intro n
    by_cases hu : isUnrecoverableLine jl l = true <;>
      simp [List.enumFrom_cons, List.filterMap_cons, List.countP_cons, hu, ih (n + 1)]

theorem load_warnings_count (jl : String → Option PyVal) (fname : String)
    (lines : List String) :
    (load_session_file_jsonl jl fname lines).2.length = unrecoverableCount jl lines := by
  rw [load_session_file_jsonl_eq]
  exact warn_filterMap_length jl fname lines 1

theorem sortedDedupNat_filter_union (p1 p2 : Nat → Bool) (n : Nat) :
    sortedDedupNat ((List.range n).filter p1 ++ (List.range n).filter p2) =
      (List.range n).filter (fun i => p1 i || p2 i) := by
  unfold sortedDedupNat
  have hnd1 : (List.insertionSort (· ≤ ·)
      (((List.range n).filter p1 ++ (List.range n).filter p2).dedup)).Nodup :=
    (List.perm_insertionSort _ _).nodup_iff.mpr (List.nodup_dedup _)
  have hnd2 : ((List.range n).filter (fun i => p1 i || p2 i)).Nodup :=
    ((List.pairwise_lt_range n).filter _).imp Nat.ne_of_lt
  apply List.eq_of_perm_of_sorted ((List.perm_ext_iff_of_nodup hnd1 hnd2).mpr ?_)
    (List.sorted_insertionSort _ _)
    (((List.pairwise_lt_range n).filter _).imp Nat.le_of_lt)
  intro a
  rw [(List.perm_insertionSort (· ≤ ·) _).mem_iff, List.mem_dedup]
  simp only [List.mem_append, List.mem_filter, Bool.or_eq_true]
  tauto

theorem extract_records_starts_eq (jl : String → Option PyVal) (line : String) :
    extract_records_from_bad_line jl line =
      (if ((List.range (line.toList.length + 1)).filter (fun i =>
            recPat1.isPrefixOf (line.toList.drop i) || recPat2.isPrefixOf (line.toList.drop i))).isEmpty
       then []
       else collectSegments jl line.toList
         ((List.range (line.toList.length + 1)).filter (fun i =>
            recPat1.isPrefixOf (line.toList.drop i) || recPat2.isPrefixOf (line.toList.drop i)))) := by
  unfold extract_records_from_bad_line substrStarts
  dsimp only
  rw [sortedDedupNat_filter_union]

-- === Lemmas: the web-export path ===

theorem asList_ok (v : PyVal) (xs : List PyVal) (h : asList v = .ok xs) : v = .list xs := by
  cases v <;> simp [asList] at h
  rw [h]

theorem webContentPair_ok (raw text : PyVal) (p : PyVal × Option String)
    (h : webContentPair raw text = .ok p) :
    (∃ s, p.1 = PyVal.str s) ∨
    (p.1 = text ∧ truthy text = true ∧ ∀ xs, raw = PyVal.list xs → xs = []) := by
  unfold webContentPair at h
  split at h
  · rename_i xs
    split at h
    · rename_i hne
      split at h
      · exact Except.noConfusion h
      · split at h
        · exact Except.noConfusion h
        · injection h with h
          subst h
          exact Or.inl ⟨_, rfl⟩
    · rename_i hne
      injection h with h
      subst h
      unfold pyOr
      split
      · rename_i htx
        refine Or.inr ⟨rfl, htx, ?_⟩
        intro ys hys
        injection hys with hys
        subst hys
        simpa using hne
      · exact Or.inl ⟨"", rfl⟩
  · injection h with h
    subst h
    unfold pyOr
    split
    · rename_i htx
      refine Or.inr ⟨rfl, htx, ?_⟩
      intro ys hys
      rename_i hraw
      exact absurd hys (by intro hc; subst hc; exact hraw ys rfl)
    · exact Or.inl ⟨"", rfl⟩

theorem web_message_row_ok (sid : PyVal) (i : Nat) (m : PyVal) (out : MessageRow × Option PyVal)
    (h : web_message_row sid i m = .ok out) :
    out.1.message_index = i ∧ (webMsgTextOk m → ∃ s, out.1.content = PyVal.str s) := by
  unfold web_message_row at h
  cases m with
  | dict mk =>
    dsimp only [asDict] at h
    split at h
    · exact Except.noConfusion h
    · split at h
      · exact Except.noConfusion h
      · rename_i cPair hcp
        split at h
        · exact Except.noConfusion h
        · rename_i stored hstore
          injection h with h
          subst h
          refine ⟨rfl, ?_⟩
          intro hok
          rcases webContentPair_ok _ _ _ hcp with ⟨s, hs⟩ | ⟨heq, htx, hnolist⟩
          · rw [hs] at hstore
            split at hstore
            all_goals
              try simp only [pySlice] at hstore
              injection hstore with hstore
              first
                | exact ⟨_, hstore⟩
                | exact ⟨_, hstore.symm⟩
          · rcases hok mk rfl with ⟨s, hs⟩ | ⟨xs, hxs, hne⟩
            · rw [heq, hs] at hstore
              split at hstore
              all_goals
                try simp only [pySlice] at hstore
                injection hstore with hstore
                first
                  | exact ⟨_, hstore⟩
                  | exact ⟨_, hstore.symm⟩
            · exact absurd (hnolist xs hxs) hne
  | none => dsimp only [asDict] at h; exact Except.noConfusion h
  | bool b => dsimp only [asDict] at h; exact Except.noConfusion h
  | int n => dsimp only [asDict] at h; exact Except.noConfusion h
  | str s => dsimp only [asDict] at h; exact Except.noConfusion h
  | list xs => dsimp only [asDict] at h; exact Except.noConfusion h

theorem process_web_messages_facts (sid : PyVal) :
    ∀ (msgs : List PyVal) (i : Nat) (rows : List MessageRow) (tss : List PyVal)
      (out : List MessageRow × List PyVal),
      process_web_messages sid i msgs rows tss = .ok out →
      out.1.length = rows.length + msgs.length ∧
      out.1.map (fun m => m.message_index) =
        rows.map (fun m => m.message_index) ++ List.range' i msgs.length ∧
      ((∀ m ∈ msgs, webMsgTextOk m) → (∀ row ∈ rows, ∃ s, row.content = PyVal.str s) →
        ∀ row ∈ out.1, ∃ s, row.content = PyVal.str s) := by
  intro msgs
  induction msgs with
  | nil =>
    intro i rows tss out h
    injection h with h
    subst h
    exact ⟨by simp, by simp, fun _ hrows => hrows⟩
  | cons m rest ih =>
    intro i rows tss out h
    unfold process_web_messages at h
    split at h
    · exact Except.noConfusion h
    · rename_i rt hrow
      obtain ⟨hidx, hcontent⟩ := web_message_row_ok sid i m rt hrow
      obtain ⟨ih1, ih2, ih3⟩ := ih (i + 1) (rows ++ [rt.1]) _ out h
      refine ⟨?_, ?_, ?_⟩
      · rw [ih1]
        simp [Nat.add_assoc, Nat.add_comm 1 rest.length]
      · rw [ih2]
        simp [hidx, List.range'_succ]
      · intro hall hrows
        refine ih3 (fun m hm => hall m (List.mem_cons_of_mem _ hm)) ?_
        intro row hr
        rcases List.mem_append.mp hr with hr | hr
        · exact hrows row hr
        · rw [List.mem_singleton.mp hr]
          exact hcontent (hall m (List.mem_cons_self _ _))

theorem process_web_inv (zp : Option String) (zs : Option Int) (conversation : PyVal)
    (sr : SessionRow) (rows : List MessageRow)
    (h : process_web_conversation zp zs conversation = .ok (some sr, rows)) :
    ∃ conv msgs out,
      conversation = PyVal.dict conv ∧
      pyGetD conv "chat_messages" (.list []) = PyVal.list msgs ∧
      process_web_messages (pyGetD conv "uuid" (.str "")) 0 msgs [] [] = .ok out ∧
      rows = out.1 ∧
      sr.session_id = pyGetD conv "uuid" (.str "") := by
  unfold process_web_conversation at h
  cases conversation with
  | dict conv =>
    dsimp only [asDict] at h
    split at h
    · injection h with h
      simp at h
    · split at h
      · exact Except.noConfusion h
      · rename_i msgs hlist
        split at h
        · exact Except.noConfusion h
        · rename_i out hmsgs
          split at h
          · exact Except.noConfusion h
          · split at h
            · exact Except.noConfusion h
            · injection h with h
              injection h with h1 h2
              injection h1 with h1
              subst h1
              subst h2
              exact ⟨conv, msgs, out, rfl, asList_ok _ _ hlist, hmsgs, rfl, rfl⟩
  | none => dsimp only [asDict] at h; exact Except.noConfusion h
  | bool b => dsimp only [asDict] at h; exact Except.noConfusion h
  | int n => dsimp only [asDict] at h; exact Except.noConfusion h
  | str s => dsimp only [asDict] at h; exact Except.noConfusion h
  | list xs => dsimp only [asDict] at h; exact Except.noConfusion h

-- === Lemmas: session-id fold, joins, thinking extraction, rounding ===

theorem string_length_zero (s : String) (h : s.length = 0) : s = "" := by
  cases s with
  | mk data =>
    cases data with
    | nil => rfl
    | cons c cs => simp [String.length] at h

theorem pyJoin_ne_empty (sep : String) (x : String) (xs : List String) (hx : x ≠ "") :
    pyJoin sep (x :: xs) ≠ "" := by
  cases xs with
  | nil => simpa [pyJoin] using hx
  | cons y ys =>
    simp only [pyJoin]
    intro hcontra
    have hlen := congrArg String.length hcontra
    simp only [String.length_append] at hlen
    have : x.length = 0 := by
      have : ("" : String).length = 0 := rfl
      omega
    exact hx (string_length_zero x this)

theorem foldl_sessIdStep_no_meta (stem : String) :
    ∀ (records : List PyVal) (sid : PyVal),
      (∀ r ∈ records, isBrowserMetaRecord r = false) →
      (∀ r ∈ records, ∃ kvs, r = PyVal.dict kvs) →
      truthy (records.foldl (sessIdStep stem) sid) = true →
      (truthy sid = true ∧ records.foldl (sessIdStep stem) sid = sid) ∨
      (truthy sid = false ∧
        firstTruthy (stemIdCandidates stem records) =
          some (records.foldl (sessIdStep stem) sid)) := by
  intro records
  induction records with
  | nil =>
    intro sid _ _ htr
    exact Or.inl ⟨htr, rfl⟩
  | cons r rest ih =>
    intro sid hmeta hdict htr
    obtain ⟨kvs, rfl⟩ := hdict r (List.mem_cons_self _ _)
    have hm : isBrowserMetaKvs kvs = false := by
      simpa [isBrowserMetaRecord] using hmeta _ (List.mem_cons_self _ _)
    have hmeta' : ∀ r ∈ rest, isBrowserMetaRecord r = false :=
      fun r hr => hmeta r (List.mem_cons_of_mem _ hr)
    have hdict' : ∀ r ∈ rest, ∃ kvs, r = PyVal.dict kvs :=
      fun r hr => hdict r (List.mem_cons_of_mem _ hr)
    rw [List.foldl_cons] at htr ⊢
    by_cases hsid : truthy sid = true
    · have hstep : sessIdStep stem sid (PyVal.dict kvs) = sid := by
        simp [sessIdStep, hm, hsid]
      rw [hstep] at htr ⊢
      rcases ih sid hmeta' hdict' htr with ⟨h1, h2⟩ | ⟨h1, _⟩
      · exact Or.inl ⟨h1, h2⟩
      · rw [hsid] at h1
        exact Bool.noConfusion h1
    · have hsidf : truthy sid = false := by simpa using hsid
      have hstep : sessIdStep stem sid (PyVal.dict kvs) =
          pyGetD kvs "sessionId" (.str stem) := by
        simp [sessIdStep, hm, hsidf]
      rw [hstep] at htr ⊢
      have hcands : stemIdCandidates stem (PyVal.dict kvs :: rest) =
          pyGetD kvs "sessionId" (.str stem) :: stemIdCandidates stem rest := by
        simp [stemIdCandidates]
      rcases ih (pyGetD kvs "sessionId" (.str stem)) hmeta' hdict' htr with ⟨h1, h2⟩ | ⟨h1, h2⟩
      · refine Or.inr ⟨hsidf, ?_⟩
        rw [hcands, h2]
        simp [firstTruthy, h1]
      · refine Or.inr ⟨hsidf, ?_⟩
        rw [hcands]
        simp [firstTruthy, h1, h2]

theorem mapE_asStr_ok : ∀ (parts : List PyVal) (ss : List String),
    mapE asStr parts = .ok ss → parts = ss.map PyVal.str := by
  intro parts
  induction parts with
  | nil =>
    intro ss h
    injection h with h
    rw [← h]
    rfl
  | cons p ps ih =>
    intro ss h
    unfold mapE at h
    split at h
    · exact Except.noConfusion h
    · rename_i s hs
      split at h
      · exact Except.noConfusion h
      · rename_i ss0 hss
        injection h with h
        rw [← h]
        have hp : p = PyVal.str s := by
          cases p <;> simp [asStr] at hs
          rw [hs]
        rw [hp, ih ss0 hss]
        rfl

theorem thinkingTextOf_truthy (b t : PyVal) (h : thinkingTextOf b = some t) :
    truthy t = true := by
  cases b with
  | dict kvs =>
    unfold thinkingTextOf at h
    dsimp only at h
    split at h
    · split at h
      · rename_i ht
        injection h with h
        rw [← h]
        exact ht
      · exact Option.noConfusion h
    · exact Option.noConfusion h
  | none => exact Option.noConfusion h
  | bool b => exact Option.noConfusion h
  | int n => exact Option.noConfusion h
  | str s => exact Option.noConfusion h
  | list xs => exact Option.noConfusion h

theorem extract_thinking_ok_ne_empty (v : PyVal) (s : String)
    (h : extract_thinking v = .ok (some s)) : s ≠ "" := by
  cases v with
  | list blocks =>
    unfold extract_thinking at h
    dsimp only at h
    split at h
    · injection h with h
      exact Option.noConfusion h
    · rename_i hne
      split at h
      · exact Except.noConfusion h
      · rename_i ss hss
        injection h with h
        injection h with h
        have hparts := mapE_asStr_ok _ _ hss
        cases ss with
        | nil =>
          rw [hparts] at hne
          simp at hne
        | cons s0 rest =>
          have hmem : PyVal.str s0 ∈ blocks.filterMap thinkingTextOf := by
            rw [hparts]
            exact List.mem_cons_self _ _
          obtain ⟨b, _, hb⟩ := List.mem_filterMap.mp hmem
          have hs0 : s0 ≠ "" := by
            simpa [truthy] using thinkingTextOf_truthy _ _ hb
          rw [← h]
          exact pyJoin_ne_empty _ _ _ hs0
  | none => exact Option.noConfusion (Except.ok.inj h)
  | bool b => exact Option.noConfusion (Except.ok.inj h)
  | int n => exact Option.noConfusion (Except.ok.inj h)
  | str t => exact Option.noConfusion (Except.ok.inj h)
  | dict kvs => exact Option.noConfusion (Except.ok.inj h)

theorem fmtRound0_nearest (q : ℚ) : |(fmtRound0 q : ℚ) - q| ≤ 1 / 2 := by
  have h1 : (⌊q⌋ : ℚ) ≤ q := Int.floor_le q
  have h2 : q < ⌊q⌋ + 1 := Int.lt_floor_add_one q
  unfold fmtRound0
  split
  · rename_i h
    rw [abs_le]
    constructor <;> linarith
  · rename_i h
    rw [not_lt] at h
    split
    · rename_i h'
      rw [abs_le]
      push_cast
      constructor <;> linarith
    · rename_i h'
      rw [not_lt] at h'
      have heq : q - ⌊q⌋ = 1 / 2 := le_antisymm h' h
      split
      · rw [abs_le]
        constructor <;> linarith
      · rw [abs_le]
        push_cast
        constructor <;> linarith

theorem mapE_asStr_map (ss : List String) : mapE asStr (ss.map PyVal.str) = .ok ss := by
  induction ss with
  | nil => rfl
  | cons s rest ih => simp [mapE, asStr, ih]

theorem filterMap_thinkingTextOf_str (blocks : List PyVal)
    (h : ∀ b ∈ blocks, ∀ kvs, b = PyVal.dict kvs →
        pyEqStr (pyGet kvs "type") "thinking" = true →
        ∃ t, pyGetD kvs "thinking" (.str "") = PyVal.str t) :
    blocks.filterMap thinkingTextOf = (nonEmptyThinkTexts blocks).map PyVal.str := by
  induction blocks with
  | nil => rfl
  | cons b bs ih =>
    have htail := ih (fun b hb => h b (List.mem_cons_of_mem _ hb))
    cases b with
    | dict kvs =>
      by_cases htk : pyEqStr (pyGet kvs "type") "thinking" = true
      · obtain ⟨t, ht⟩ := h _ (List.mem_cons_self _ _) kvs rfl htk
        by_cases hte : t = ""
        · subst hte
          simp [List.filterMap_cons, nonEmptyThinkTexts, thinkingTextOf, htk, ht, truthy] at *
          exact htail
        · simp [List.filterMap_cons, nonEmptyThinkTexts, thinkingTextOf, htk, ht, truthy, hte] at *
          exact htail
      · simp [List.filterMap_cons, nonEmptyThinkTexts, thinkingTextOf, htk] at *
        exact htail
    | none =>
      simpa [List.filterMap_cons, nonEmptyThinkTexts, thinkingTextOf] using htail
    | bool b =>
      simpa [List.filterMap_cons, nonEmptyThinkTexts, thinkingTextOf] using htail
    | int n =>
      simpa [List.filterMap_cons, nonEmptyThinkTexts, thinkingTextOf] using htail
    | str s =>
      simpa [List.filterMap_cons, nonEmptyThinkTexts, thinkingTextOf] using htail
    | list xs =>
      simpa [List.filterMap_cons, nonEmptyThinkTexts, thinkingTextOf] using htail

theorem extract_thinking_char (blocks : List PyVal)
    (h : ∀ b ∈ blocks, ∀ kvs, b = PyVal.dict kvs →
        pyEqStr (pyGet kvs "type") "thinking" = true →
        ∃ t, pyGetD kvs "thinking" (.str "") = PyVal.str t) :
    extract_thinking (.list blocks) =
      .ok (if (nonEmptyThinkTexts blocks).isEmpty then Option.none
           else some (pyJoin "\n" (nonEmptyThinkTexts blocks))) := by
  unfold extract_thinking
  dsimp only
  rw [filterMap_thinkingTextOf_str blocks h]
  by_cases hize : (nonEmptyThinkTexts blocks).isEmpty = true
  · have hmap : ((nonEmptyThinkTexts blocks).map PyVal.str).isEmpty = true := by
      simp only [List.isEmpty_iff, List.map_eq_nil_iff]
      exact List.isEmpty_iff.mp hize
    rw [if_pos hmap, if_pos hize]
  · have hne : ¬ ((nonEmptyThinkTexts blocks).map PyVal.str).isEmpty = true := by
      simp only [List.isEmpty_iff, List.map_eq_nil_iff]
      simpa [List.isEmpty_iff] using hize
    rw [if_neg hne, if_neg hize, mapE_asStr_map]

-- === Claims ===

/-- C2: in both normalization paths, the `message_index` values of the
emitted message rows are exactly `0..N-1`, in source order, with skipped
record types consuming no index. -/
theorem claim_C2_message_index_contiguous :
    (∀ (stem fp : String) (fs : Int) (proj : Option String) (records : List PyVal)
       (sr : SessionRow) (rows : List MessageRow),
       process_session stem fp fs proj records = .ok (some sr, rows) →
       rows.map (fun m => m.message_index) = List.range rows.length) ∧
    (∀ (zp : Option String) (zs : Option Int) (conv : PyVal)
       (sr : SessionRow) (rows : List MessageRow),
       process_web_conversation zp zs conv = .ok (some sr, rows) →
       rows.map (fun m => m.message_index) = List.range rows.length) := by
  constructor
  · intro stem fp fs proj records sr rows h
    obtain ⟨st, hpr, _, hrows, _, _, _⟩ := process_session_inv _ _ _ _ _ _ _ h
    obtain ⟨_, _, _, hidx, _, _⟩ := process_records_facts stem records initSessState st hpr
    obtain ⟨_, h2⟩ := hidx rfl rfl
    rw [hrows]
    exact h2
  · intro zp zs conv sr rows h
    obtain ⟨cv, msgs, out, _, _, hmsgs, hrows, _⟩ := process_web_inv _ _ _ _ _ h
    obtain ⟨hlen, hmap, _⟩ := process_web_messages_facts _ msgs 0 [] [] out hmsgs
    rw [hrows, hmap, hlen]
    simp [List.range_eq_range']

theorem claim_C2_witness :
    ∃ sr rows,
      process_session "w" "f" 0 Option.none [recWithSid, recSummaryB, recNoSid] =
        .ok (some sr, rows) ∧
      rows.map (fun m => m.message_index) = List.range rows.length := by
  obtain ⟨sr, rows, hEq⟩ :
      ∃ sr rows, process_session "w" "f" 0 Option.none [recWithSid, recSummaryB, recNoSid] =
        .ok (some sr, rows) := ⟨_, _, rfl⟩
  exact ⟨sr, rows, hEq, claim_C2_message_index_contiguous.1 _ _ _ _ _ _ _ hEq⟩

theorem tokFromUsage_of_asIntB (usage : List (String × PyVal)) (key : String) (n : Int)
    (h : asIntB (pyGetD usage key (.int 0)) = .ok n) :
    tokFromUsage usage key (if n ≠ 0 then some n else Option.none) := by
  refine ⟨?_, ?_, ?_⟩
  · intro habs
    rcases habs with habs | habs
    · simp only [pyGetD, habs, Option.getD_none, asIntB] at h
      injection h with h
      subst h
      simp
    · simp only [pyGetD, habs, Option.getD_some, asIntB] at h
      injection h with h
      subst h
      simp
  · intro m hm hl
    simp only [pyGetD, hl, Option.getD_some, asIntB] at h
    injection h with h
    subst h
    rw [if_pos hm]
  · split
    · rename_i hne
      intro hc
      injection hc with hc
      exact hne hc
    · exact Option.noConfusion

theorem recordTokenFields_ok (usage : List (String × PyVal)) (a b c d : Int)
    (h : recordTokenFields usage = .ok (a, b, c, d)) :
    asIntB (pyGetD usage "input_tokens" (.int 0)) = .ok a ∧
    asIntB (pyGetD usage "output_tokens" (.int 0)) = .ok b ∧
    asIntB (pyGetD usage "cache_read_input_tokens" (.int 0)) = .ok c ∧
    asIntB (pyGetD usage "cache_creation_input_tokens" (.int 0)) = .ok d := by
  unfold recordTokenFields at h
  split at h
  · exact Except.noConfusion h
  · rename_i a0 ha
    split at h
    · exact Except.noConfusion h
    · rename_i b0 hb
      split at h
      · exact Except.noConfusion h
      · rename_i c0 hc
        split at h
        · exact Except.noConfusion h
        · rename_i d0 hd
          injection h with h
          simp only [Prod.mk.injEq] at h
          obtain ⟨rfl, rfl, rfl, rfl⟩ := h
          exact ⟨ha, hb, hc, hd⟩

theorem mkCliRow_tokens (sid : PyVal) (idx : Nat) (r msg usage : List (String × PyVal))
    (rtype role raw_content model : PyVal) (content_text : String) (thinking : Option String)
    (a b c d : Int)
    (hmsg : asDict (pyGetD r "message" (.dict [])) = .ok msg)
    (husage : asDict (pyGetD msg "usage" (.dict [])) = .ok usage)
    (hq : recordTokenFields usage = .ok (a, b, c, d)) :
    rowTokensFromRecord (PyVal.dict r)
      (mkCliRow sid idx r msg rtype role raw_content model content_text thinking a b c d) := by
  obtain ⟨h1, h2, h3, h4⟩ := recordTokenFields_ok usage a b c d hq
  refine ⟨r, msg, usage, rfl, hmsg, husage, ?_, ?_, ?_, ?_⟩
  · show tokFromUsage usage "input_tokens" (if a ≠ 0 then some a else Option.none)
    exact tokFromUsage_of_asIntB usage "input_tokens" a h1
  · show tokFromUsage usage "output_tokens" (if b ≠ 0 then some b else Option.none)
    exact tokFromUsage_of_asIntB usage "output_tokens" b h2
  · show tokFromUsage usage "cache_read_input_tokens" (if c ≠ 0 then some c else Option.none)
    exact tokFromUsage_of_asIntB usage "cache_read_input_tokens" c h3
  · show tokFromUsage usage "cache_creation_input_tokens" (if d ≠ 0 then some d else Option.none)
    exact tokFromUsage_of_asIntB usage "cache_creation_input_tokens" d h4

theorem emitMessageRow_tokens (st : SessState) (r : List (String × PyVal)) (rtype : PyVal)
    (st' : SessState) (h : emitMessageRow st r rtype = .ok st') :
    ∃ row, st'.message_rows = st.message_rows ++ [row] ∧
      rowTokensFromRecord (PyVal.dict r) row := by
  unfold emitMessageRow at h
  split at h
  · exact Except.noConfusion h
  · rename_i msg hmsg
    dsimp only at h
    split at h
    · exact Except.noConfusion h
    · rename_i usage husage
      split at h
      · exact Except.noConfusion h
      · rename_i a b c d hquad
        split at h
        · exact Except.noConfusion h
        · split at h
          · exact Except.noConfusion h
          · injection h with h
            subst h
            split
            · exact ⟨_, rfl, mkCliRow_tokens _ _ _ _ _ _ _ _ _ _ _ _ _ _ _ hmsg husage hquad⟩
            · exact ⟨_, rfl, mkCliRow_tokens _ _ _ _ _ _ _ _ _ _ _ _ _ _ _ hmsg husage hquad⟩

theorem process_record_tokens (stem : String) (st : SessState) (record : PyVal)
    (st' : SessState) (h : process_record stem st record = .ok st') :
    st'.message_rows = st.message_rows ∨
    ∃ row, st'.message_rows = st.message_rows ++ [row] ∧ rowTokensFromRecord record row := by
  cases record with
  | dict kvs =>
    unfold process_record at h
    dsimp only [asDict] at h
    obtain ⟨_, _, hrows, _⟩ := sessionLevelUpdates_spec stem st kvs
    split at h
    · injection h with h
      subst h
      exact Or.inl rfl
    · split at h
      · injection h with h
        subst h
        exact Or.inl hrows
      · split at h
        · injection h with h
          subst h
          exact Or.inl hrows
        · split at h
          · injection h with h
            subst h
            exact Or.inl hrows
          · obtain ⟨row, hrow, hok⟩ := emitMessageRow_tokens _ _ _ _ h
            rw [hrows] at hrow
            exact Or.inr ⟨row, hrow, hok⟩
  | none => exact Except.noConfusion h
  | bool b => exact Except.noConfusion h
  | int n => exact Except.noConfusion h
  | str s => exact Except.noConfusion h
  | list xs => exact Except.noConfusion h

theorem process_records_tokens (stem : String) :
    ∀ (records : List PyVal) (st st' : SessState),
      process_records stem st records = .ok st' →
      ∀ row ∈ st'.message_rows, row ∈ st.message_rows ∨
        ∃ record ∈ records, rowTokensFromRecord record row := by
  intro records
  induction records with
  | nil =>
    intro st st' h row hrow
    injection h with h
    subst h
    exact Or.inl hrow
  | cons record rest ih =>
    intro st st' h row hrow
    unfold process_records at h
    split at h
    · exact Except.noConfusion h
    · rename_i st1 h1
      rcases ih st1 st' h row hrow with hmem | ⟨rec, hrec, hok⟩
      · rcases process_record_tokens stem st record st1 h1 with heq | ⟨row1, heq, hok1⟩
        · rw [heq] at hmem
          exact Or.inl hmem
        · rw [heq] at hmem
          rcases List.mem_append.mp hmem with hmem | hmem
          · exact Or.inl hmem
          · rw [List.mem_singleton.mp hmem]
            exact Or.inr ⟨record, List.mem_cons_self _ _, hok1⟩
      · exact Or.inr ⟨rec, List.mem_cons_of_mem _ hrec, hok⟩

/-- C9: every message row emitted by the CLI/browser path takes its four
token fields from its source record's usage dict: each field is null
whenever the corresponding usage entry is absent or the integer 0
(`usage.get(key, 0)` then `x or None`), is the entry's integer when present
and non-zero, and is never the stored integer 0. -/
theorem claim_C9_token_fields :
    ∀ (stem fp : String) (fs : Int) (proj : Option String) (records : List PyVal)
      (sr : SessionRow) (rows : List MessageRow),
      process_session stem fp fs proj records = .ok (some sr, rows) →
      ∀ row ∈ rows, ∃ record ∈ records, rowTokensFromRecord record row := by
  intro stem fp fs proj records sr rows h row hrow
  obtain ⟨st, hpr, _, hrows, _, _, _⟩ := process_session_inv _ _ _ _ _ _ _ h
  rw [hrows] at hrow
  rcases process_records_tokens stem records initSessState st hpr row hrow with hmem | hfound
  · exact absurd hmem (List.not_mem_nil row)
  · exact hfound

theorem claim_C9_witness :
    ∃ sr rows, process_session "s" "f" 0 Option.none [c9rec] = .ok (some sr, rows) ∧
      (∀ row ∈ rows, ∃ record ∈ [c9rec], rowTokensFromRecord record row) ∧
      rows.map (fun m => (m.input_tokens, m.output_tokens, m.cache_read_tokens,
        m.cache_create_tokens)) = [(Option.none, some 5, Option.none, Option.none)] := by
  obtain ⟨sr, rows, hEq, hmap⟩ :
      ∃ sr rows, process_session "s" "f" 0 Option.none [c9rec] = .ok (some sr, rows) ∧
        rows.map (fun m => (m.input_tokens, m.output_tokens, m.cache_read_tokens,
          m.cache_create_tokens)) = [(Option.none, some 5, Option.none, Option.none)] :=
    ⟨_, _, rfl, rfl⟩
  exact ⟨sr, rows, hEq, claim_C9_token_fields _ _ _ _ _ _ _ hEq, hmap⟩

/-- C3 counterexample: a web conversation with a chat turn but no `uuid`
yields a SessionRow whose `session_id` is the empty string — the session is
not discarded, contradicting the claim for the web path. -/
theorem claim_C3_counterexample :
    (process_web_conversation Option.none Option.none convNoUuid).map
        (fun p => p.1.map (fun s => s.session_id)) = .ok (some (PyVal.str "")) ∧
    truthy (PyVal.str "") = false := ⟨rfl, rfl⟩

/-- C3 (amended): the CLI/browser path guarantees a truthy (non-empty)
`session_id` on every produced SessionRow; the web path discards a
conversation exactly when its `chat_messages` value is falsy, and otherwise
stores the conversation's `uuid` value — possibly the empty string — as the
session id. -/
theorem claim_C3_session_id_amended :
    (∀ (stem fp : String) (fs : Int) (proj : Option String) (records : List PyVal)
       (sr : SessionRow) (rows : List MessageRow),
       process_session stem fp fs proj records = .ok (some sr, rows) →
       truthy sr.session_id = true) ∧
    (∀ (zp : Option String) (zs : Option Int) (kvs : List (String × PyVal)),
       truthy (pyGetD kvs "chat_messages" (.list [])) = false →
       process_web_conversation zp zs (.dict kvs) = .ok (Option.none, [])) ∧
    (∀ (zp : Option String) (zs : Option Int) (conv : PyVal) (sr : SessionRow)
       (rows : List MessageRow),
       process_web_conversation zp zs conv = .ok (some sr, rows) →
       ∃ kvs, conv = PyVal.dict kvs ∧ sr.session_id = pyGetD kvs "uuid" (.str "")) := by
  refine ⟨?_, ?_, ?_⟩
  · intro stem fp fs proj records sr rows h
    obtain ⟨st, _, hsid, _, hval, _, _⟩ := process_session_inv _ _ _ _ _ _ _ h
    rw [hval]
    exact hsid
  · intro zp zs kvs h
    unfold process_web_conversation
    dsimp only [asDict]
    rw [if_pos (by simp [h])]
  · intro zp zs conv sr rows h
    obtain ⟨kvs, msgs, out, hconv, _, _, _, hsid⟩ := process_web_inv _ _ _ _ _ h
    exact ⟨kvs, hconv, hsid⟩

theorem claim_C3_witness :
    (∃ sr rows, process_session "w" "f" 0 Option.none [recWithSid] = .ok (some sr, rows) ∧
       truthy sr.session_id = true) ∧
    process_web_conversation Option.none Option.none (.dict []) = .ok (Option.none, []) := by
  constructor
  · obtain ⟨sr, rows, hEq⟩ :
        ∃ sr rows, process_session "w" "f" 0 Option.none [recWithSid] = .ok (some sr, rows) :=
      ⟨_, _, rfl⟩
    exact ⟨sr, rows, hEq, claim_C3_session_id_amended.1 _ _ _ _ _ _ _ hEq⟩
  · exact claim_C3_session_id_amended.2.1 Option.none Option.none [] rfl

/-- C4 counterexample: with a first record lacking `sessionId` and a second
record carrying `"abc"`, the code keeps the file stem (the immediate
`dict.get` default at the first record), while the claim prescribes the
first non-empty identifier `"abc"`. -/
theorem claim_C4_counterexample :
    (process_session "stemname" "f" 0 Option.none [recNoSid, recWithSid]).map
        (fun p => p.1.map (fun s => s.session_id)) = .ok (some (PyVal.str "stemname")) ∧
    claimSessionId "stemname" [recNoSid, recWithSid] = PyVal.str "abc" ∧
    PyVal.str "stemname" ≠ PyVal.str "abc" := by
  refine ⟨rfl, rfl, ?_⟩
  intro h
  injection h with h
  exact absurd h (by decide)

/-- C4 (amended): in the CLI path (no browser-export metadata records), the
session id is the first truthy value of `record.get("sessionId", stem)`
over the records in order — the stem is the immediate default whenever the
field is absent, not only a last resort. -/
theorem claim_C4_session_id_default_amended :
    ∀ (stem fp : String) (fs : Int) (proj : Option String) (records : List PyVal)
      (sr : SessionRow) (rows : List MessageRow),
      (∀ r ∈ records, isBrowserMetaRecord r = false) →
      process_session stem fp fs proj records = .ok (some sr, rows) →
      firstTruthy (stemIdCandidates stem records) = some sr.session_id := by
  intro stem fp fs proj records sr rows hmeta h
  obtain ⟨st, hpr, hsid, _, hval, _, _⟩ := process_session_inv _ _ _ _ _ _ _ h
  obtain ⟨hfold, _, _, _, _, hdict⟩ := process_records_facts stem records initSessState st hpr
  rw [hfold] at hsid
  rcases foldl_sessIdStep_no_meta stem records PyVal.none hmeta hdict hsid with ⟨h1, _⟩ | ⟨_, h2⟩
  · exact Bool.noConfusion h1
  · rw [hval, hfold]
    exact h2

theorem claim_C4_witness :
    ∃ sr rows,
      process_session "stemname" "f" 0 Option.none [recNoSid, recWithSid] = .ok (some sr, rows) ∧
      firstTruthy (stemIdCandidates "stemname" [recNoSid, recWithSid]) = some sr.session_id := by
  obtain ⟨sr, rows, hEq⟩ :
      ∃ sr rows, process_session "stemname" "f" 0 Option.none [recNoSid, recWithSid] =
        .ok (some sr, rows) := ⟨_, _, rfl⟩
  refine ⟨sr, rows, hEq, claim_C4_session_id_default_amended _ _ _ _ _ _ _ ?_ hEq⟩
  intro r hr
  rcases List.mem_cons.mp hr with rfl | hr
  · rfl
  · rcases List.mem_cons.mp hr with rfl | hr
    · rfl
    · exact absurd hr (List.not_mem_nil _)

/-- C1: after loading a line-delimited source, the number of emitted
message rows equals the number of input units (parsed or recovered records
plus one unit per unrecoverable line) minus the skipped-type records minus
the unrecoverable lines; a web conversation emits one row per chat turn. -/
theorem claim_C1_row_count :
    (∀ (jl : String → Option PyVal) (fname stem fp : String) (fs : Int) (proj : Option String)
       (lines : List String) (sr : SessionRow) (rows : List MessageRow),
       process_session stem fp fs proj (load_session_file_jsonl jl fname lines).1 =
         .ok (some sr, rows) →
       skippedCount (load_session_file_jsonl jl fname lines).1 + unrecoverableCount jl lines ≤
         inputRecordCount jl lines ∧
       rows.length = inputRecordCount jl lines -
         skippedCount (load_session_file_jsonl jl fname lines).1 - unrecoverableCount jl lines) ∧
    (∀ (zp : Option String) (zs : Option Int) (conv : PyVal) (sr : SessionRow)
       (rows : List MessageRow),
       process_web_conversation zp zs conv = .ok (some sr, rows) →
       ∃ kvs msgs, conv = PyVal.dict kvs ∧
         pyGetD kvs "chat_messages" (.list []) = PyVal.list msgs ∧
         rows.length = msgs.length) := by
  constructor
  · intro jl fname stem fp fs proj lines sr rows h
    obtain ⟨st, hpr, _, hrows, _, _, _⟩ := process_session_inv _ _ _ _ _ _ _ h
    obtain ⟨_, _, hcount, _, _, _⟩ := process_records_facts stem _ initSessState st hpr
    have hskip_le : skippedCount (load_session_file_jsonl jl fname lines).1 ≤
        (load_session_file_jsonl jl fname lines).1.length := List.countP_le_length _
    have hflat : (load_session_file_jsonl jl fname lines).1 = lines.flatMap (lineRecords jl) := by
      rw [load_session_file_jsonl_eq]
    have hinput : inputRecordCount jl lines =
        (load_session_file_jsonl jl fname lines).1.length + unrecoverableCount jl lines := by
      rw [inputRecordCount, hflat]
    simp only [initSessState, List.length_nil, Nat.zero_add] at hcount
    constructor
    · omega
    · rw [hrows]
      omega
  · intro zp zs conv sr rows h
    obtain ⟨kvs, msgs, out, hconv, hchat, hmsgs, hrows, _⟩ := process_web_inv _ _ _ _ _ h
    obtain ⟨hlen, _, _⟩ := process_web_messages_facts _ msgs 0 [] [] out hmsgs
    refine ⟨kvs, msgs, hconv, hchat, ?_⟩
    rw [hrows, hlen]
    simp

theorem claim_C1_witness :
    ∃ sr rows,
      process_session "w" "f" 0 Option.none (load_session_file_jsonl jlW "f.jsonl" linesW).1 =
        .ok (some sr, rows) ∧
      rows.length = inputRecordCount jlW linesW -
        skippedCount (load_session_file_jsonl jlW "f.jsonl" linesW).1 -
        unrecoverableCount jlW linesW := by
  have hload : (load_session_file_jsonl jlW "f.jsonl" linesW).1 = [recWithSid, recSummaryB] := rfl
  obtain ⟨sr, rows, hEq⟩ :
      ∃ sr rows, process_session "w" "f" 0 Option.none [recWithSid, recSummaryB] =
        .ok (some sr, rows) := ⟨_, _, rfl⟩
  have hEq2 : process_session "w" "f" 0 Option.none
      (load_session_file_jsonl jlW "f.jsonl" linesW).1 = .ok (some sr, rows) := by
    rw [hload]
    exact hEq
  exact ⟨sr, rows, hEq2,
    (claim_C1_row_count.1 jlW "f.jsonl" "w" "f" 0 Option.none linesW sr rows hEq2).2⟩

/-- C5: loading a line-delimited file is total and declaratively
characterized — each line contributes its parsed record, its recovered
sub-records, or nothing; exactly one warning naming the file and the
1-based line number is emitted per unrecoverable line, and the remaining
lines are still processed.  Recovery scans for all occurrences of the two
record-opening patterns: the sorted-deduplicated offsets are exactly the
ascending list of positions where either pattern matches (empty ⇒ no
recovery). -/
theorem claim_C5_loader_recovery :
    (∀ (jl : String → Option PyVal) (fname : String) (lines : List String),
       load_session_file_jsonl jl fname lines =
         (lines.flatMap (lineRecords jl),
          (List.enumFrom 1 lines).filterMap (fun p =>
            if isUnrecoverableLine jl p.2 then some (lineWarning fname p.1) else Option.none))) ∧
    (∀ (jl : String → Option PyVal) (line : String),
       extract_records_from_bad_line jl line =
         (if ((List.range (line.toList.length + 1)).filter (fun i =>
               recPat1.isPrefixOf (line.toList.drop i) || recPat2.isPrefixOf (line.toList.drop i))).isEmpty
          then []
          else collectSegments jl line.toList
            ((List.range (line.toList.length + 1)).filter (fun i =>
               recPat1.isPrefixOf (line.toList.drop i) || recPat2.isPrefixOf (line.toList.drop i))))) :=
  ⟨load_session_file_jsonl_eq, extract_records_starts_eq⟩

/-- C6 counterexample: on a list holding one `thinking`-typed block with
empty text, the code returns null, while the claim — the list does contain
a `thinking`-typed block — prescribes the joined texts, the empty string. -/
theorem claim_C6_counterexample :
    extract_thinking c6input = .ok Option.none ∧
    claimExtractThinking c6input = some "" ∧
    (Option.none : Option String) ≠ some "" := ⟨rfl, rfl, by decide⟩

/-- C6 (amended): `extract_thinking` returns null for every non-list
input; for a list it joins with newlines the texts of the `thinking`-typed
blocks whose text is non-empty, returning null when none is non-empty; it
never returns the empty string. -/
theorem claim_C6_extract_thinking_amended :
    (∀ v : PyVal, (∀ xs, v ≠ PyVal.list xs) → extract_thinking v = .ok Option.none) ∧
    (∀ blocks : List PyVal,
       (∀ b ∈ blocks, ∀ kvs, b = PyVal.dict kvs →
          pyEqStr (pyGet kvs "type") "thinking" = true →
          ∃ t, pyGetD kvs "thinking" (.str "") = PyVal.str t) →
       extract_thinking (.list blocks) =
         .ok (if (nonEmptyThinkTexts blocks).isEmpty then Option.none
              else some (pyJoin "\n" (nonEmptyThinkTexts blocks)))) ∧
    (∀ (v : PyVal) (s : String), extract_thinking v = .ok (some s) → s ≠ "") := by
  refine ⟨?_, extract_thinking_char, extract_thinking_ok_ne_empty⟩
  intro v h
  cases v with
  | list xs => exact absurd rfl (h xs)
  | none => rfl
  | bool b => rfl
  | int n => rfl
  | str s => rfl
  | dict kvs => rfl

theorem claim_C6_witness :
    extract_thinking (PyVal.str "x") = .ok Option.none ∧
    extract_thinking (.list [PyVal.dict [("type", .str "thinking"), ("thinking", .str "T")],
                             PyVal.dict [("type", .str "text"), ("text", .str "X")]]) =
      .ok (some "T") := by
  constructor
  · exact claim_C6_extract_thinking_amended.1 (PyVal.str "x") (fun xs h => PyVal.noConfusion h)
  · have h := claim_C6_extract_thinking_amended.2.1
      [PyVal.dict [("type", .str "thinking"), ("thinking", .str "T")],
       PyVal.dict [("type", .str "text"), ("text", .str "X")]] ?_
    · rw [h]
      rfl
    · intro b hb kvs hkv htk
      rcases List.mem_cons.mp hb with rfl | hb
      · injection hkv with hkv
        subst hkv
        exact ⟨"T", rfl⟩
      · rcases List.mem_cons.mp hb with rfl | hb
        · injection hkv with hkv
          subst hkv
          exact absurd htk (by decide)
        · exact absurd hb (List.not_mem_nil _)

/-- C8 counterexample: the truthy timestamp of a browser-export metadata
record is not collected (that record is skipped before the collection
point), so `start_time` is not the minimum over the timestamps of all
records. -/
theorem claim_C8_counterexample :
    (process_session "st" "f" 0 Option.none [c8meta, c8user]).map
        (fun p => p.1.map (fun s => s.start_time)) =
      .ok (some (PyVal.str "2024-06-15T10:00:00Z")) ∧
    pyMin (claimAllTimestamps [c8meta, c8user]) = .ok (PyVal.str "2020-01-01T00:00:00Z") ∧
    PyVal.str "2024-06-15T10:00:00Z" ≠ PyVal.str "2020-01-01T00:00:00Z" := by
  refine ⟨rfl, rfl, ?_⟩
  intro h
  injection h with h
  exact absurd h (by decide)

/-- C8 (amended): for a produced CLI/browser session, `start_time` and
`end_time` are the minimum and maximum under string-lexicographic
comparison of the truthy timestamps of all records except browser-export
metadata records, and null when no such timestamp exists. -/
theorem claim_C8_time_range_amended :
    ∀ (stem fp : String) (fs : Int) (proj : Option String) (records : List PyVal)
      (sr : SessionRow) (rows : List MessageRow),
      process_session stem fp fs proj records = .ok (some sr, rows) →
      (records.flatMap recTimestamps = [] →
        sr.start_time = PyVal.none ∧ sr.end_time = PyVal.none) ∧
      (∀ ss : List String, records.flatMap recTimestamps = ss.map PyVal.str → ss ≠ [] →
        ∃ m M : String, sr.start_time = PyVal.str m ∧ sr.end_time = PyVal.str M ∧
          m ∈ ss ∧ M ∈ ss ∧
          ∀ t ∈ ss, charsLt t.toList m.toList = false ∧ charsLt M.toList t.toList = false) := by
  intro stem fp fs proj records sr rows h
  obtain ⟨st, hpr, _, _, _, hmin, hmax⟩ := process_session_inv _ _ _ _ _ _ _ h
  obtain ⟨_, hts, _, _, _, _⟩ := process_records_facts stem records initSessState st hpr
  simp only [initSessState, List.nil_append] at hts
  constructor
  · intro hnil
    have hempty : st.timestamps.isEmpty = true := by
      rw [hts, hnil]
      rfl
    rw [if_pos hempty] at hmin hmax
    injection hmin with hmin
    injection hmax with hmax
    exact ⟨hmin.symm, hmax.symm⟩
  · intro ss hss hne
    cases ss with
    | nil => exact absurd rfl hne
    | cons s0 rest =>
      have hts2 : st.timestamps = (s0 :: rest).map PyVal.str := by rw [hts, hss]
      have hnotE : ¬ st.timestamps.isEmpty = true := by
        rw [hts2]
        simp
      rw [if_neg hnotE] at hmin hmax
      rw [hts2, pyMin_str] at hmin
      rw [hts2, pyMax_str] at hmax
      injection hmin with hmin
      injection hmax with hmax
      refine ⟨strMinFold s0 rest, strMaxFold s0 rest, hmin.symm, hmax.symm, ?_, ?_, ?_⟩
      · rcases strMinFold_mem rest s0 with h1 | h1
        · rw [h1]
          exact List.mem_cons_self _ _
        · exact List.mem_cons_of_mem _ h1
      · rcases strMaxFold_mem rest s0 with h1 | h1
        · rw [h1]
          exact List.mem_cons_self _ _
        · exact List.mem_cons_of_mem _ h1
      · intro t ht
        have ht' : t = s0 ∨ t ∈ rest := List.mem_cons.mp ht
        exact ⟨strMinFold_min rest s0 t ht', strMaxFold_max rest s0 t ht'⟩

theorem claim_C8_witness :
    ∃ m M : String,
      (process_session "st" "f" 0 Option.none [c8user]).map
          (fun p => p.1.map (fun s => (s.start_time, s.end_time))) =
        .ok (some (PyVal.str m, PyVal.str M)) ∧
      m ∈ ["2024-06-15T10:00:00Z"] ∧ M ∈ ["2024-06-15T10:00:00Z"] := by
  obtain ⟨sr, rows, hEq⟩ :
      ∃ sr rows, process_session "st" "f" 0 Option.none [c8user] = .ok (some sr, rows) :=
    ⟨_, _, rfl⟩
  obtain ⟨-, h2⟩ := claim_C8_time_range_amended "st" "f" 0 Option.none [c8user] sr rows hEq
  obtain ⟨m, M, hm, hM, hmem1, hmem2, -⟩ :=
    h2 ["2024-06-15T10:00:00Z"] rfl (by decide)
  refine ⟨m, M, ?_, hmem1, hmem2⟩
  rw [hEq]
  simp [Except.map, hm, hM]

/-- C7: a plain string containing `"base64"` within its first 500
characters and longer than 1000 characters is replaced by
`"[base64 content, ~<N>KB decoded]"` with `N` a nearest integer to
`len * 3/4 / 1024` (ties resolved to even, as Python `"%.0f"` does); every
other plain string is returned unchanged. -/
theorem claim_C7_replace_base64 :
    ∀ s : String,
      (pyInStr "base64" (s.take 500) = true → s.length > 1000 →
        replace_base64_content (.str s) =
          .ok (.str ("[base64 content, ~" ++
            toString (fmtRound0 (base64_decoded_size_kb s.length)) ++ "KB decoded]")) ∧
        |(fmtRound0 (base64_decoded_size_kb s.length) : ℚ) -
            (s.length * 3 / 4 : ℚ) / 1024| ≤ 1 / 2) ∧
      ((pyInStr "base64" (s.take 500) = true ∧ s.length > 1000 → False) →
        replace_base64_content (.str s) = .ok (.str s)) := by
  intro s
  constructor
  · intro h1 h2
    constructor
    · have hc : (pyInStr "base64" (s.take 500) && decide (s.length > 1000)) = true := by
        simp [h1, h2]
      unfold replace_base64_content
      dsimp only
      rw [if_pos hc]
      rfl
    · have hb := fmtRound0_nearest (base64_decoded_size_kb s.length)
      unfold base64_decoded_size_kb at hb
      exact hb
  · intro hno
    have hc : ¬ (pyInStr "base64" (s.take 500) && decide (s.length > 1000)) = true := by
      simp only [Bool.and_eq_true, decide_eq_true_eq]
      intro hc
      exact hno hc
    unfold replace_base64_content
    dsimp only
    rw [if_neg hc]

theorem claim_C7_witness :
    pyInStr "base64" (("base64" ++ String.mk (List.replicate 1000 'A')).take 500) = true ∧
    ("base64" ++ String.mk (List.replicate 1000 'A')).length > 1000 ∧
    replace_base64_content (.str ("base64" ++ String.mk (List.replicate 1000 'A'))) =
      .ok (.str "[base64 content, ~1KB decoded]") ∧
    replace_base64_content (.str "hello") = .ok (.str "hello") := by
  have h6 : ("base64" : String).length = 6 := rfl
  have h1000 : (String.mk (List.replicate 1000 'A')).length = 1000 := by
    show (List.replicate 1000 'A').length = 1000
    exact List.length_replicate 1000 'A'
  have hlen : ("base64" ++ String.mk (List.replicate 1000 'A')).length = 1006 := by
    rw [String.length_append, h6, h1000]
  have h2 : ("base64" ++ String.mk (List.replicate 1000 'A')).length > 1000 := by
    rw [hlen]
    omega
  have hdata : ("base64" ++ String.mk (List.replicate 1000 'A')).data =
      "base64".data ++ List.replicate 1000 'A' := rfl
  have htake : ("base64" ++ String.mk (List.replicate 1000 'A')).take 500 =
      String.mk ("base64".data ++ List.replicate 494 'A') := by
    rw [String.take_eq, hdata]
    have ht1 : List.take 500 ("base64".data ++ List.replicate 1000 'A') =
        List.take 500 "base64".data ++
          List.take (500 - "base64".data.length) (List.replicate 1000 'A') :=
      List.take_append_eq_append_take
    have ht2 : List.take 500 "base64".data = "base64".data :=
      List.take_of_length_le (by decide)
    have ht3 : (500 - "base64".data.length) = 494 := by decide
    rw [ht1, ht2, ht3, List.take_replicate]
    norm_num
  have h1 : pyInStr "base64"
      (("base64" ++ String.mk (List.replicate 1000 'A')).take 500) = true := by
    rw [htake]
    unfold pyInStr
    have hinf : List.IsInfix "base64".toList
        (String.mk ("base64".data ++ List.replicate 494 'A')).toList := by
      refine ⟨[], List.replicate 494 'A', ?_⟩
      simp only [List.nil_append]
      rfl
    exact decide_eq_true hinf
  have hq : base64_decoded_size_kb 1006 = 1509 / 2048 := by
    unfold base64_decoded_size_kb
    norm_num
  have hfloor : ⌊(1509 / 2048 : ℚ)⌋ = 0 := by
    rw [Int.floor_eq_iff]
    constructor <;> norm_num
  have hfmt : fmtRound0 (base64_decoded_size_kb 1006) = 1 := by
    rw [hq]
    unfold fmtRound0
    rw [hfloor]
    rw [if_neg (by norm_num), if_pos (by norm_num)]
    norm_num
  have hval : toString (fmtRound0 (base64_decoded_size_kb 1006)) = "1" := by
    rw [hfmt]
    rfl
  refine ⟨h1, h2, ?_, ?_⟩
  · have h := (claim_C7_replace_base64 ("base64" ++ String.mk (List.replicate 1000 'A'))).1 h1 h2
    rw [h.1, hlen, hval]
    rfl
  · exact (claim_C7_replace_base64 "hello").2 (fun hc => absurd hc.2 (by decide))

/-- C10 counterexample: a web turn whose `text` field is a truthy list and
which has no structured `content` stores that list itself as the row's
content — `text_field or ""` keeps the list, so the stored content is not
a string, contradicting the claim for the web path. -/
theorem claim_C10_counterexample :
    (process_web_conversation Option.none Option.none convListText).map
        (fun p => p.2.map (fun m => m.content)) = .ok [PyVal.list [PyVal.str "a"]] ∧
    ∀ s, PyVal.list [PyVal.str "a"] ≠ PyVal.str s :=
  ⟨rfl, fun _ h => PyVal.noConfusion h⟩

/-- C10 (amended): every CLI/browser-path message row stores a string
content — the empty string when nothing can be extracted; the web path
stores a string whenever each turn either gets its `text` fallback as a
string (absent included) or carries a non-empty structured `content`
list. -/
theorem claim_C10_content_string_amended :
    (∀ (stem fp : String) (fs : Int) (proj : Option String) (records : List PyVal)
       (sr : SessionRow) (rows : List MessageRow),
       process_session stem fp fs proj records = .ok (some sr, rows) →
       ∀ row ∈ rows, ∃ s, row.content = PyVal.str s) ∧
    (process_session "s" "f" 0 Option.none [c10rec]).map
        (fun p => p.2.map (fun m => m.content)) = .ok [PyVal.str ""] ∧
    (∀ (zp : Option String) (zs : Option Int) (conv : PyVal) (sr : SessionRow)
       (rows : List MessageRow) (kvs : List (String × PyVal)) (msgs : List PyVal),
       process_web_conversation zp zs conv = .ok (some sr, rows) →
       conv = PyVal.dict kvs →
       pyGetD kvs "chat_messages" (.list []) = PyVal.list msgs →
       (∀ m ∈ msgs, webMsgTextOk m) →
       ∀ row ∈ rows, ∃ s, row.content = PyVal.str s) := by
  refine ⟨?_, rfl, ?_⟩
  · intro stem fp fs proj records sr rows h row hrow
    obtain ⟨st, hpr, _, hrows, _, _, _⟩ := process_session_inv _ _ _ _ _ _ _ h
    obtain ⟨_, _, _, _, hok, _⟩ := process_records_facts stem records initSessState st hpr
    have hall := hok (by intro r hr; exact absurd hr (List.not_mem_nil r))
    rw [hrows] at hrow
    exact (hall row hrow).1
  · intro zp zs conv sr rows kvs msgs h hconv hchat hall row hrow
    obtain ⟨kvs2, msgs2, out, hconv2, hchat2, hmsgs, hrows, _⟩ := process_web_inv _ _ _ _ _ h
    rw [hconv] at hconv2
    injection hconv2 with hk
    subst hk
    rw [hchat] at hchat2
    injection hchat2 with hm
    subst hm
    obtain ⟨_, _, h3⟩ := process_web_messages_facts _ msgs 0 [] [] out hmsgs
    rw [hrows] at hrow
    exact h3 hall (by intro r hr; exact absurd hr (List.not_mem_nil r)) row hrow

theorem claim_C10_witness :
    (∃ sr rows, process_session "s" "f" 0 Option.none [c10rec] = .ok (some sr, rows) ∧
       ∀ row ∈ rows, ∃ s, row.content = PyVal.str s) ∧
    (∃ sr rows, process_web_conversation Option.none Option.none convW = .ok (some sr, rows) ∧
       ∀ row ∈ rows, ∃ s, row.content = PyVal.str s) := by
  constructor
  · obtain ⟨sr, rows, hEq⟩ :
        ∃ sr rows, process_session "s" "f" 0 Option.none [c10rec] = .ok (some sr, rows) :=
      ⟨_, _, rfl⟩
    exact ⟨sr, rows, hEq, claim_C10_content_string_amended.1 _ _ _ _ _ _ _ hEq⟩
  · obtain ⟨sr, rows, hEq⟩ :
        ∃ sr rows, process_web_conversation Option.none Option.none convW =
          .ok (some sr, rows) := ⟨_, _, rfl⟩
    refine ⟨sr, rows, hEq,
      claim_C10_content_string_amended.2.2 Option.none Option.none convW sr rows _ _
        hEq rfl rfl ?_⟩
    intro m hm
    simp only [List.mem_cons, List.not_mem_nil, or_false] at hm
    rcases hm with rfl | rfl
    · intro kvs hkvs
      injection hkvs with hkvs
      subst hkvs
      exact Or.inl ⟨"q", rfl⟩
    · intro kvs hkvs
      injection hkvs with hkvs
      subst hkvs
      exact Or.inl ⟨"a", rfl⟩
